import Mathlib

/-!
# go-scp: a verification model of the SCP client

This file gives a shallow embedding, in Lean 4, of the parts of the go-scp
client that its specification talks about:

* the `path/filepath` string functions the code relies on (`Clean`, `Join`,
  `Dir`, `Base`, `Rel`), modelled for the Unix separator `/` exactly as the
  Go standard library computes them on strings;
* the receive-side directory reconstructor (`ReceiveDir` message loop,
  `copyFileBodyFromRemote`, `isSubdirectory`, `ReceiveFile` destination
  resolution);
* the send-side directory walker (`SendDir` with its `endDirectories`
  closure over `filepath.Walk`);
* the session command-line builders (`newSinkSession` / `newResourceSession`)
  and the session runners (`runSinkSession` / `runResourceSession`).

Filesystem and protocol side effects are modelled as explicit effect traces;
machine integers (file modes, sizes, timestamps) are modelled as `Nat` since
none of the modelled code performs overflowing arithmetic on them.

Functions of this repository that are referenced by the modelled code but are
not part of the sources supplied here (`realPath`, `escapeShellArg`) are
modelled from the specification and marked as such in their doc comments.
-/

/-! ## Go `path/filepath` on Unix: strings as lists of characters -/

/-- The Unix path separator used by `path/filepath` on the target platform. -/
def sepChar : Char := '/'

/-- Splitting a character list on `/`, as `strings.Split(s, "/")` does:
the result is always non-empty, and empty components are kept. -/
def splitSep : List Char → List (List Char)
  | [] => [[]]
  | c :: rest =>
    if c = sepChar then [] :: splitSep rest
    else
      match splitSep rest with
      | [] => [[c]]
      | p :: ps => (c :: p) :: ps

/-- Joining components with `/` between them (inverse of `splitSep`
on separator-free components). -/
def joinSep : List (List Char) → List Char
  | [] => []
  | [c] => c
  | c :: rest => c ++ sepChar :: joinSep rest

/-- Whether a Go path string is rooted (starts with `/`). -/
def isRooted (s : String) : Bool := s.data.head? = some sepChar

/-- The element loop of Go's `filepath.Clean`: empty and `.` elements are
dropped; `..` pops the last kept element unless there is none (then it is
dropped when rooted and kept when relative) or the last kept element is
itself a retained `..` (only possible in relative paths). -/
def cleanLoop (rooted : Bool) : List (List Char) → List (List Char) → List (List Char)
  | out, [] => out
  | out, c :: rest =>
    if c = [] ∨ c = ['.'] then cleanLoop rooted out rest
    else if c = ['.', '.'] then
      match out.getLast? with
      | none => if rooted then cleanLoop rooted out rest else cleanLoop rooted [['.', '.']] rest
      | some l =>
        if l = ['.', '.'] then cleanLoop rooted (out ++ [['.', '.']]) rest
        else cleanLoop rooted out.dropLast rest
    else cleanLoop rooted (out ++ [c]) rest

/-- The components of `filepath.Clean s` (without the leading `/` of a rooted
path, and `[]` for the results `"."` and `"/"`). -/
def cleanedComps (s : String) : List (List Char) :=
  cleanLoop (isRooted s) [] (splitSep s.data)

/-- Rendering of a rooted path from its components: `/` alone for no
components, else `/` followed by the `/`-joined components. -/
def renderAbs (cs : List (List Char)) : String := String.mk (sepChar :: joinSep cs)

/-- Go's `filepath.Clean` for Unix paths. -/
def filepathClean (s : String) : String :=
  if s = "" then "."
  else
    let cs := cleanedComps s
    if isRooted s then renderAbs cs
    else if cs = [] then "." else String.mk (joinSep cs)

/-- Go's `filepath.Join` restricted to the two-argument form used by the
code: empty arguments are dropped, the rest are `/`-joined and cleaned. -/
def filepathJoin (a b : String) : String :=
  if a = "" ∧ b = "" then ""
  else if a = "" then filepathClean b
  else if b = "" then filepathClean a
  else filepathClean (a ++ "/" ++ b)

/-- The prefix of a character list up to and including its last `/`
(empty when there is no `/`). -/
def takeToLastSep (l : List Char) : List Char :=
  ((l.reverse.dropWhile fun c => ¬ c = sepChar).reverse)

/-- Go's `filepath.Dir`: everything up to the final separator, cleaned. -/
def filepathDir (s : String) : String :=
  filepathClean (String.mk (takeToLastSep s.data))

/-- Go's `filepath.Base`: the last element of the path after trailing
separators are removed; `"."` for the empty path and `"/"` for all-separator
paths. -/
def filepathBase (s : String) : String :=
  if s = "" then "."
  else
    let l := s.data.reverse.dropWhile (fun c => c = sepChar)
    if l = [] then "/"
    else String.mk (l.takeWhile (fun c => ¬ c = sepChar)).reverse

/-- Length of the longest common prefix of two component lists. -/
def commonPrefixLen : List (List Char) → List (List Char) → Nat
  | a :: as, b :: bs => if a = b then commonPrefixLen as bs + 1 else 0
  | _, _ => 0

/-- Go's `filepath.Rel` for Unix paths: both arguments are cleaned, equal
paths give `"."`, mixing rooted and relative paths fails, and otherwise the
result climbs with one `..` per base component past the common prefix and
then descends into the target remainder.  It fails when the first base
component past the common prefix is itself a `..`. -/
def filepathRel (basepath targpath : String) : Option String :=
  let base := filepathClean basepath
  let targ := filepathClean targpath
  if targ = base then some "."
  else if (isRooted base) ≠ (isRooted targ) then none
  else
    let bc := cleanedComps basepath
    let tc := cleanedComps targpath
    let k := commonPrefixLen bc tc
    if (bc.drop k).head? = some ['.', '.'] then none
    else some (String.mk (joinSep (List.replicate (bc.length - k) ['.', '.'] ++ tc.drop k)))

/-! ## Utilities of the repository that are outside the supplied sources -/

/-- Modelled from the spec: `realPath` is applied by the operations to the
remote path before it is used; the specification describes no rewriting of
the remote path other than the shell escaping performed when the command
line is built, so on the specified (Unix) platform `realPath` is the
identity. -/
def realPath (s : String) : String := s

/-- Modelled from the spec: `escapeShellArg` is the repository's pure
shell-argument quoting utility ("the remote path argument is always
shell-escaped before being placed in the command line"); it wraps the
argument in single quotes, escaping embedded single quotes. -/
def escapeShellArg (s : String) : String :=
  "'" ++ String.mk (s.data.foldr (fun c acc => if c = '\'' then '\'' :: '\\' :: '\'' :: '\'' :: acc else c :: acc) []) ++ "'"

/-- Go's `strings.HasPrefix`, computed on the character lists. -/
def hasPrefixStr (s pre : String) : Bool := pre.data.isPrefixOf s.data

/-- `isSubdirectory` from the receive side: `targetpath` counts as a
subdirectory of `basepath` unless the relative path from `basepath` to
`targetpath` starts with `"../"`. -/
def isSubdirectory (basepath targetpath : String) : Option Bool :=
  match filepathRel basepath targetpath with
  | none => none
  | some rel => some (¬ (hasPrefixStr rel "../"))

-- sanity checks of the filepath model against Go's documented behaviour
example : filepathClean "/dst/root/a/.." = "/dst/root" := by decide
example : filepathClean "a//b/./../c" = "a/c" := by decide
example : filepathClean "" = "." := by decide
example : filepathClean "/.." = "/" := by decide
example : filepathClean "a/../../b" = "../b" := by decide
example : filepathJoin "/dst" "root" = "/dst/root" := by decide
example : filepathDir "/dst/root/a" = "/dst/root" := by decide
example : filepathDir "/a" = "/" := by decide
example : filepathDir "a" = "." := by decide
example : filepathBase "/dst/root/a" = "a" := by decide
example : filepathBase "/" = "/" := by decide
example : filepathRel "/dst/root/a" "/dst/root" = some ".." := by decide
example : filepathRel "/dst/root/a" "/dst" = some "../.." := by decide
example : filepathRel "/dst/root" "/dst/root/a/b" = some "a/b" := by decide
example : filepathRel "/a/b" "/a/b" = some "." := by decide
example : filepathRel "/a/c" "/a/b/d" = some "../b/d" := by decide
example : isSubdirectory "/dst/root/a" "/dst/root" = some true := by decide
example : isSubdirectory "/dst/root/a" "/dst" = some false := by decide
example : isSubdirectory "/dst/root/a" "/dst/root/a/b" = some true := by decide
example : escapeShellArg "a b" = "'a b'" := by decide

/-! ## Wire headers, file descriptors and filesystem effects -/

/-- `timeMsgHeader`: modification and access time (protocol seconds). -/
structure TimeH where
  mtime : Nat
  atime : Nat
  deriving DecidableEq

/-- `fileMsgHeader`: mode, size and base name of an announced file body. -/
structure FileH where
  mode : Nat
  size : Nat
  name : String
  deriving DecidableEq

/-- `scp.FileInfo` as produced by `NewFileInfo`: the transfer-level
descriptor handed to the accept filter. -/
structure FInfo where
  name : String
  size : Nat
  mode : Nat
  isDir : Bool
  mtime : Nat
  atime : Nat
  deriving DecidableEq

/-- Local filesystem effects performed by the receive side, recorded in
order.  `acceptCheck` records an evaluation of the caller-supplied filter,
`openFileOp`/`copyBody` the creation and body copy of a destination file,
and `discardBody` a body drained to `ioutil.Discard`. -/
inductive FsOp where
  | mkdirAll (path : String) (mode : Nat)
  | chmodOp (path : String) (mode : Nat)
  | chtimesOp (path : String) (atime mtime : Nat)
  | acceptCheck (parentDir : String) (name : String)
  | openFileOp (path : String) (mode : Nat)
  | copyBody (path : String) (size : Nat)
  | discardBody (size : Nat)
  deriving DecidableEq

/-- Outcome oracle for the fallible OS calls made by
`copyFileBodyFromRemote`: `none` means the call succeeds, `some e` that it
fails with message `e`. -/
structure OsOutcome where
  openErr : Option String
  copyErr : Option String
  chmodErr : Option String
  chtimesErr : Option String
  deriving DecidableEq

/-- The all-success outcome. -/
def noErr : OsOutcome := ⟨none, none, none, none⟩

/-- `copyFileBodyFromRemote`: open/create the destination with the header's
mode, stream the body into it, close it, then `os.Chmod` with the header's
mode and `os.Chtimes` with the time header's atime/mtime.  The trace records
each OS call actually attempted, in order; the `Option String` is the
returned error, `none` on success. -/
def copyFileBodyFromRemote (oso : OsOutcome) (localFilename : String)
    (timeHeader : TimeH) (fileHeader : FileH) : List FsOp × Option String :=
  let tr0 := [FsOp.openFileOp localFilename fileHeader.mode]
  match oso.openErr with
  | some e => (tr0, some ("failed to open destination file: err=" ++ e))
  | none =>
    let tr1 := tr0 ++ [FsOp.copyBody localFilename fileHeader.size]
    match oso.copyErr with
    | some e => (tr1, some ("failed to copy file: err=" ++ e))
    | none =>
      let tr2 := tr1 ++ [FsOp.chmodOp localFilename fileHeader.mode]
      match oso.chmodErr with
      | some e => (tr2, some ("failed to change file mode: err=" ++ e))
      | none =>
        let tr3 := tr2 ++ [FsOp.chtimesOp localFilename timeHeader.atime timeHeader.mtime]
        match oso.chtimesErr with
        | some e => (tr3, some ("failed to change file time: err=" ++ e))
        | none => (tr3, none)

/-! ## `ReceiveFile` destination resolution -/

/-- The local filename `ReceiveFile(srcFile, destFile)` writes to.
`destStat` is the result of `os.Stat(destFile)`: `none` when the
destination does not exist, `some isDir` when it exists. -/
def receiveFileDest (srcFile destFile : String) (destStat : Option Bool) : String :=
  let srcFile := realPath (filepathClean srcFile)
  let destFile := filepathClean destFile
  match destStat with
  | some true => filepathJoin destFile (filepathBase srcFile)
  | _ => destFile

/-- `ReceiveFile` after the two headers are read: the body is copied to the
resolved destination by `copyFileBodyFromRemote` (OS calls succeeding). -/
def receiveFile (srcFile destFile : String) (destStat : Option Bool)
    (timeHeader : TimeH) (fileHeader : FileH) : List FsOp × Option String :=
  copyFileBodyFromRemote noErr (receiveFileDest srcFile destFile destStat) timeHeader fileHeader

/-- The trace of a fully successful `copyFileBodyFromRemote` at `p`. -/
def okTrace (p : String) (timeHeader : TimeH) (fileHeader : FileH) : List FsOp :=
  [FsOp.openFileOp p fileHeader.mode, FsOp.copyBody p fileHeader.size,
   FsOp.chmodOp p fileHeader.mode, FsOp.chtimesOp p timeHeader.atime timeHeader.mtime]

/-! ## Session command lines and session runners -/

/-- The command line built by `newSinkSession` (send direction): flag group
`-t` plus `p` (updatesPermission), `r` (recursive), `d` (remoteDestIsDir),
and the shell-escaped remote destination path; `scpPath` defaults to
`"scp"`. -/
def newSinkSessionCmd (remoteDestPath : String) (remoteDestIsDir : Bool)
    (scpPath : String) (recursive updatesPermission : Bool) : String :=
  let scpPath := if scpPath = "" then "scp" else scpPath
  let opt := "-t" ++ (if updatesPermission then "p" else "")
      ++ (if recursive then "r" else "") ++ (if remoteDestIsDir then "d" else "")
  scpPath ++ " " ++ opt ++ " " ++ escapeShellArg remoteDestPath

/-- The command line built by `newResourceSession` (receive direction):
flag group `-f` plus `p`, `r`, `d` as for the sink side. -/
def newResourceSessionCmd (remoteSrcPath : String) (remoteSrcIsDir : Bool)
    (scpPath : String) (recursive updatesPermission : Bool) : String :=
  let scpPath := if scpPath = "" then "scp" else scpPath
  let opt := "-f" ++ (if updatesPermission then "p" else "")
      ++ (if recursive then "r" else "") ++ (if remoteSrcIsDir then "d" else "")
  scpPath ++ " " ++ opt ++ " " ++ escapeShellArg remoteSrcPath

/-- The flag group of the sink command as a plain string (what stands
between `-` and the space before the path). -/
def sinkFlagGroup (updatesPermission recursive isDir : Bool) : String :=
  "t" ++ (if updatesPermission then "p" else "")
    ++ (if recursive then "r" else "") ++ (if isDir then "d" else "")

/-- The flag group of the resource (receive) command. -/
def resourceFlagGroup (updatesPermission recursive isDir : Bool) : String :=
  "f" ++ (if updatesPermission then "p" else "")
    ++ (if recursive then "r" else "") ++ (if isDir then "d" else "")

/-- The remote path `Send(info, r, destFile)` hands to its sink session:
the cleaned destination's parent directory. -/
def sendRemotePath (destFile : String) : String :=
  realPath (filepathDir (filepathClean destFile))

/-- The full remote command line started by `Send` (not recursive, remote
path not asserted to be a directory, permissions updated, default scp
binary). -/
def sendCommand (destFile : String) : String :=
  newSinkSessionCmd (sendRemotePath destFile) false "" false true

/-- Steps a session runner performs on the caller's thread of control. -/
inductive SessionAction where
  | runHandler
  | closeStdin
  | waitSession
  | closeSession
  deriving DecidableEq

/-- Concurrency structure of a session runner: `watchers` lists the
background tasks it spawns, each as a pair of "does it wait on the external
cancellation signal" and the action it performs when that signal fires;
`body` is the sequence of steps on the caller's thread. -/
structure RunPlan where
  watchers : List (Bool × SessionAction)
  body : List SessionAction
  deriving DecidableEq

/-- `runResourceSession`: spawns one goroutine which returns immediately
when `ctx.Done()` is nil ("can never canceled") and otherwise blocks on the
done channel and calls `s.Close()` when it fires; the caller's thread runs
the handler, waits for the remote process, and closes the session
(deferred). -/
def runResourceSessionPlan (ctxHasDone : Bool) : RunPlan :=
  { watchers := if ctxHasDone then [(true, SessionAction.closeSession)] else []
    body := [SessionAction.runHandler, SessionAction.waitSession, SessionAction.closeSession] }

/-- `runSinkSession`: no goroutine is spawned at all; the caller's thread
runs the handler, closes stdin (deferred inside the inner closure), waits
for the remote process, and closes the session (deferred). -/
def runSinkSessionPlan : RunPlan :=
  { watchers := []
    body := [SessionAction.runHandler, SessionAction.closeStdin,
             SessionAction.waitSession, SessionAction.closeSession] }

/-! ## Claims about sessions, command lines, `ReceiveFile` and
`copyFileBodyFromRemote` -/

/-- C5 (counterexample): the claim "for every transfer operation — both
send-direction operations using runSinkSession and receive-direction
operations using runResourceSession — a background watcher waits on the
external cancellation signal and closes the transport session" is false at
the send side: `runSinkSession` spawns no watcher at all. -/
theorem runSinkSession_no_cancel_watcher :
    ¬ ((true, SessionAction.closeSession) ∈ runSinkSessionPlan.watchers) := by
  decide

/-- C5 (amended): only the receive-direction runner `runResourceSession`
spawns a background watcher, and only when the context has a done channel;
that watcher waits on the cancellation signal and closes the session when it
fires.  The send-direction runner `runSinkSession` spawns no watcher, so
cancellation never closes a send session. -/
theorem cancel_watcher_only_for_resource_sessions :
    (runResourceSessionPlan true).watchers = [(true, SessionAction.closeSession)]
    ∧ (runResourceSessionPlan false).watchers = []
    ∧ runSinkSessionPlan.watchers = [] := by
  exact ⟨rfl, rfl, rfl⟩

/-- C6: `ReceiveFile(srcFile, destFile)` writes the received body at
`Join(destFile, Base(srcFile))` when `destFile` is an existing directory,
and at (the cleaned) `destFile` itself when `destFile` does not exist or is
a regular file: the whole effect trace — create/open, body copy, chmod,
chtimes — happens at that resolved path. -/
theorem receiveFile_destination_resolution
    (srcFile destFile : String) (timeHeader : TimeH) (fileHeader : FileH) :
    receiveFile srcFile destFile (some true) timeHeader fileHeader =
      (okTrace (filepathJoin (filepathClean destFile)
        (filepathBase (realPath (filepathClean srcFile)))) timeHeader fileHeader, none)
    ∧ receiveFile srcFile destFile (some false) timeHeader fileHeader =
      (okTrace (filepathClean destFile) timeHeader fileHeader, none)
    ∧ receiveFile srcFile destFile none timeHeader fileHeader =
      (okTrace (filepathClean destFile) timeHeader fileHeader, none) := by
  refine ⟨rfl, rfl, rfl⟩

/-- C7: both session builders construct the remote command line as the scp
binary name (defaulting to `"scp"`), one flag group, and the shell-escaped
remote path.  The sink (send-direction) flag group starts with `t` and the
resource (receive-direction) flag group with `f`; each contains exactly one
of the two direction letters, contains `p` iff permission/time preservation
is on, `r` iff recursive, and `d` iff the remote path is asserted to be a
directory. -/
theorem session_command_line_shape
    (p sp : String) (u r d : Bool) :
    newSinkSessionCmd p d sp r u =
      (if sp = "" then "scp" else sp) ++ " "
        ++ ("-" ++ sinkFlagGroup u r d) ++ " " ++ escapeShellArg p
    ∧ newResourceSessionCmd p d sp r u =
      (if sp = "" then "scp" else sp) ++ " "
        ++ ("-" ++ resourceFlagGroup u r d) ++ " " ++ escapeShellArg p
    ∧ ('t' ∈ (sinkFlagGroup u r d).data ∧ ¬ 'f' ∈ (sinkFlagGroup u r d).data)
    ∧ ('f' ∈ (resourceFlagGroup u r d).data ∧ ¬ 't' ∈ (resourceFlagGroup u r d).data)
    ∧ ('p' ∈ (sinkFlagGroup u r d).data ↔ u = true)
    ∧ ('r' ∈ (sinkFlagGroup u r d).data ↔ r = true)
    ∧ ('d' ∈ (sinkFlagGroup u r d).data ↔ d = true)
    ∧ ('p' ∈ (resourceFlagGroup u r d).data ↔ u = true)
    ∧ ('r' ∈ (resourceFlagGroup u r d).data ↔ r = true)
    ∧ ('d' ∈ (resourceFlagGroup u r d).data ↔ d = true) := by
  cases u <;> cases r <;> cases d <;>
    exact ⟨rfl, rfl, by decide, by decide, by decide, by decide, by decide,
           by decide, by decide, by decide⟩

/-- C8: after a successful open and body copy, `copyFileBodyFromRemote`
always attempts `os.Chmod` with the file header's mode, then — exactly when
the chmod succeeded — attempts `os.Chtimes` with the pending time header's
atime/mtime, in that order; a chmod failure is returned to the caller, and
a chtimes failure is returned to the caller. -/
theorem copyFileBodyFromRemote_chmod_then_chtimes
    (oso : OsOutcome) (p : String) (timeHeader : TimeH) (fileHeader : FileH)
    (hopen : oso.openErr = none) (hcopy : oso.copyErr = none) :
    copyFileBodyFromRemote oso p timeHeader fileHeader =
      ([FsOp.openFileOp p fileHeader.mode, FsOp.copyBody p fileHeader.size,
        FsOp.chmodOp p fileHeader.mode]
        ++ (if oso.chmodErr = none
            then [FsOp.chtimesOp p timeHeader.atime timeHeader.mtime] else []),
       match oso.chmodErr with
       | some e => some ("failed to change file mode: err=" ++ e)
       | none =>
         match oso.chtimesErr with
         | some e => some ("failed to change file time: err=" ++ e)
         | none => none) := by
  obtain ⟨o1, o2, o3, o4⟩ := oso
  cases hopen
  cases hcopy
  cases o3 <;> cases o4 <;> rfl

/-- C8 witness: a concrete run in which chmod succeeds and chtimes fails;
the chtimes error is surfaced after both operations were attempted. -/
theorem copyFileBodyFromRemote_chmod_then_chtimes_witness :
    copyFileBodyFromRemote ⟨none, none, none, some "boom"⟩ "/d/f" ⟨7, 9⟩ ⟨420, 5, "f"⟩ =
      ([FsOp.openFileOp "/d/f" 420, FsOp.copyBody "/d/f" 5, FsOp.chmodOp "/d/f" 420,
        FsOp.chtimesOp "/d/f" 9 7],
       some "failed to change file time: err=boom") := by
  simpa using copyFileBodyFromRemote_chmod_then_chtimes
    ⟨none, none, none, some "boom"⟩ "/d/f" ⟨7, 9⟩ ⟨420, 5, "f"⟩ rfl rfl

/-- C9: the remote path `Send` places in the scp command line is the parent
directory of the cleaned `destFile`, not `destFile` itself — the command
line is a function of that parent directory alone, so the final path
component of `destFile` is never sent to the remote. -/
theorem send_remote_path_is_parent_dir
    (destFile d1 d2 : String)
    (hsame : filepathDir (filepathClean d1) = filepathDir (filepathClean d2)) :
    sendCommand destFile =
      "scp" ++ " " ++ "-tp" ++ " "
        ++ escapeShellArg (filepathDir (filepathClean destFile))
    ∧ sendRemotePath destFile = filepathDir (filepathClean destFile)
    ∧ sendCommand d1 = sendCommand d2 := by
  refine ⟨rfl, rfl, ?_⟩
  simp only [sendCommand, sendRemotePath, realPath, hsame]

/-- C9 witness: two destinations that share a parent produce the identical
command line, which names only the parent `/a/b`. -/
theorem send_remote_path_is_parent_dir_witness :
    sendCommand "/a/b/c" = "scp" ++ " " ++ "-tp" ++ " " ++ escapeShellArg "/a/b"
    ∧ sendCommand "/a/b/x" = sendCommand "/a/b/y" := by
  have h := send_remote_path_is_parent_dir "/a/b/c" "/a/b/x" "/a/b/y" (by decide)
  exact ⟨by rw [h.1]; decide, h.2.2⟩

/-! ## The receive-side directory reconstructor (`ReceiveDir`) -/

/-- The header kinds read off the wire by `ReadHeaderOrReply` (a clean end
of stream is modelled as the end of the message list). -/
inductive MsgHeader where
  | timeMsg (mtime atime : Nat)
  | fileMsg (mode : Nat) (size : Nat) (name : String)
  | startDirectoryMsg (mode : Nat) (name : String)
  | endDirectoryMsg
  | okMsg
  deriving DecidableEq

/-- The caller-supplied accept filter `(parentDir, info) → accept`.
(An error returned by the filter aborts the whole traversal in the source;
none of the verified claims concerns that branch, so the filter is
modelled as total.) -/
def AcceptFn : Type := String → FInfo → Bool

/-- The loop state of `ReceiveDir`'s handler, plus the effect trace of the
local filesystem operations performed so far. -/
structure RecvState where
  curDir : String
  timeHeader : TimeH
  timeHeaders : List TimeH
  isFirstStartDirectory : Bool
  skipBaseDir : String
  effects : List FsOp
  deriving DecidableEq

/-- One iteration of `ReceiveDir`'s message loop: the `switch h.(type)`
over the received header.  Returns the successor state and `some error`
when the iteration returns early with an error. -/
def recvStep (accept : AcceptFn) (skipsFirstDirectory : Bool)
    (st : RecvState) : MsgHeader → RecvState × Option String
  | MsgHeader.timeMsg mtime atime => ({ st with timeHeader := ⟨mtime, atime⟩ }, none)
  | MsgHeader.startDirectoryMsg mode name =>
    if st.isFirstStartDirectory ∧ skipsFirstDirectory then
      ({ st with isFirstStartDirectory := false }, none)
    else
      let st := { st with isFirstStartDirectory := false }
      let curDir := filepathJoin st.curDir name
      let st := { st with curDir := curDir,
                          timeHeaders := st.timeHeaders ++ [st.timeHeader] }
      if ¬ (st.skipBaseDir = "") then (st, none)
      else
        let info : FInfo := ⟨name, 0, mode, true, st.timeHeader.mtime, st.timeHeader.atime⟩
        let st := { st with effects := st.effects ++ [FsOp.acceptCheck (filepathDir curDir) name] }
        if accept (filepathDir curDir) info then
          ({ st with effects := st.effects ++ [FsOp.mkdirAll curDir mode, FsOp.chmodOp curDir mode] }, none)
        else
          ({ st with skipBaseDir := curDir }, none)
  | MsgHeader.endDirectoryMsg =>
    let st :=
      match st.timeHeaders.getLast? with
      | some th =>
        let st1 := { st with timeHeader := th, timeHeaders := st.timeHeaders.dropLast }
        if st1.skipBaseDir = "" then
          { st1 with effects := st1.effects ++ [FsOp.chtimesOp st1.curDir th.atime th.mtime] }
        else st1
      | none => st
    let st := { st with curDir := filepathDir st.curDir }
    if st.skipBaseDir = "" then (st, none)
    else if st.curDir = "" then (st, none)
    else
      match isSubdirectory st.skipBaseDir st.curDir with
      | none => (st, some "failed to check directory is subdirectory")
      | some sub => if sub then (st, none) else ({ st with skipBaseDir := "" }, none)
  | MsgHeader.fileMsg mode size name =>
    if st.skipBaseDir = "" then
      let info : FInfo := ⟨name, size, mode, false, st.timeHeader.mtime, st.timeHeader.atime⟩
      let st := { st with effects := st.effects ++ [FsOp.acceptCheck st.curDir name] }
      if accept st.curDir info then
        let localFilename := filepathJoin st.curDir name
        match copyFileBodyFromRemote noErr localFilename st.timeHeader ⟨mode, size, name⟩ with
        | (tr, none) => ({ st with effects := st.effects ++ tr }, none)
        | (tr, some e) => ({ st with effects := st.effects ++ tr }, some e)
      else (st, none)
    else
      ({ st with effects := st.effects ++ [FsOp.discardBody size] }, none)
  | MsgHeader.okMsg => (st, none)

/-- `ReceiveDir`'s message loop: steps through the headers until the list
is exhausted (`io.EOF`) or a step returns an error. -/
def receiveDirLoop (accept : AcceptFn) (skipsFirstDirectory : Bool) :
    RecvState → List MsgHeader → RecvState × Option String
  | st, [] => (st, none)
  | st, h :: rest =>
    match recvStep accept skipsFirstDirectory st h with
    | (st1, none) => receiveDirLoop accept skipsFirstDirectory st1 rest
    | (st1, some e) => (st1, some e)

/-- `ReceiveDir(srcDir, destDir, acceptFn)` on the local side: `destDir` is
cleaned; when it does not exist (`destExists = false`) it is created with
`os.MkdirAll(destDir, 0777)` before the session starts and the first
start-directory header of the stream will be skipped. -/
def receiveDir (accept : AcceptFn) (destDir : String) (destExists : Bool)
    (msgs : List MsgHeader) : RecvState × Option String :=
  let destDir := filepathClean destDir
  let st0 : RecvState :=
    { curDir := destDir, timeHeader := ⟨0, 0⟩, timeHeaders := [],
      isFirstStartDirectory := true, skipBaseDir := "",
      effects := if destExists then [] else [FsOp.mkdirAll destDir 0o777] }
  receiveDirLoop accept (¬ destExists) st0 msgs

/-- Body bytes an effect consumes from the protocol stream. -/
def bodyBytesOf : FsOp → Nat
  | FsOp.copyBody _ n => n
  | FsOp.discardBody n => n
  | _ => 0

/-- Total body bytes the effects of a run consume from the stream. -/
def consumedBodyBytes (ops : List FsOp) : Nat := (ops.map bodyBytesOf).sum

/-- Total body bytes the sender puts on the wire for a header stream. -/
def bodyBytesOnWire (msgs : List MsgHeader) : Nat :=
  (msgs.map fun h => match h with
    | MsgHeader.fileMsg _ size _ => size
    | _ => 0).sum

/-- A filter that rejects exactly the entries named `secret`. -/
def acceptNotSecret : AcceptFn := fun _ i => if i.name = "secret" then false else true

/-- A stream announcing a directory `top` holding a 5-byte file `secret`
and a 3-byte file `pub`. -/
def msgsC1 : List MsgHeader :=
  [MsgHeader.timeMsg 100 200, MsgHeader.startDirectoryMsg 493 "top",
   MsgHeader.timeMsg 110 210, MsgHeader.fileMsg 420 5 "secret",
   MsgHeader.timeMsg 120 220, MsgHeader.fileMsg 420 3 "pub",
   MsgHeader.endDirectoryMsg]

/-- C1: a `FileHeader` received while *not* inside a skipped subtree whose
file the accept filter rejects is **not** drained: the loop `continue`s
without calling `CopyFileBodyTo`, so of the 8 body bytes on the wire only
the 3 bytes of the accepted file are consumed; the 5 bytes of the rejected
`secret` stay in the stream (no `copyBody` and no `discardBody` effect is
recorded for it), desynchronizing every following header read. -/
theorem receiveDir_rejected_file_body_not_drained :
    (receiveDir acceptNotSecret "/dst" true msgsC1).2 = none
    ∧ (receiveDir acceptNotSecret "/dst" true msgsC1).1.effects =
      [FsOp.acceptCheck "/dst" "top", FsOp.mkdirAll "/dst/top" 493,
       FsOp.chmodOp "/dst/top" 493, FsOp.acceptCheck "/dst/top" "secret",
       FsOp.acceptCheck "/dst/top" "pub", FsOp.openFileOp "/dst/top/pub" 420,
       FsOp.copyBody "/dst/top/pub" 3, FsOp.chmodOp "/dst/top/pub" 420,
       FsOp.chtimesOp "/dst/top/pub" 220 120, FsOp.chtimesOp "/dst/top" 200 100]
    ∧ consumedBodyBytes (receiveDir acceptNotSecret "/dst" true msgsC1).1.effects = 3
    ∧ bodyBytesOnWire msgsC1 = 8
    ∧ ¬ (FsOp.discardBody 5 ∈ (receiveDir acceptNotSecret "/dst" true msgsC1).1.effects) := by
  refine ⟨rfl, rfl, rfl, rfl, by decide⟩

/-- A filter that rejects exactly the entries named `a`. -/
def acceptNotA : AcceptFn := fun _ i => if i.name = "a" then false else true

/-- A stream announcing a directory `root` holding a rejected directory `a`
(immediately closed) followed by a sibling 4-byte file `b`. -/
def msgsC2 : List MsgHeader :=
  [MsgHeader.startDirectoryMsg 493 "root", MsgHeader.startDirectoryMsg 493 "a",
   MsgHeader.endDirectoryMsg, MsgHeader.fileMsg 420 4 "b", MsgHeader.endDirectoryMsg]

/-- C2: when the end marker of the rejected directory `a` ascends `curDir`
to `/dst/root` — the *parent* of `skipBaseDir = /dst/root/a`, hence neither
equal to nor inside it — the skip marker is **not** cleared:
`isSubdirectory` answers `true` because `Rel = ".."` does not carry the
`"../"` prefix it tests for.  Consequently the sibling file `b` after the
subtree's end marker is drained to the discard sink instead of being
created at `/dst/root/b`. -/
theorem receiveDir_skip_survives_subtree_end_marker :
    isSubdirectory "/dst/root/a" "/dst/root" = some true
    ∧ (receiveDir acceptNotA "/dst" true (msgsC2.take 3)).1.skipBaseDir = "/dst/root/a"
    ∧ (receiveDir acceptNotA "/dst" true (msgsC2.take 3)).1.curDir = "/dst/root"
    ∧ (receiveDir acceptNotA "/dst" true msgsC2).1.effects =
      [FsOp.acceptCheck "/dst" "root", FsOp.mkdirAll "/dst/root" 493,
       FsOp.chmodOp "/dst/root" 493, FsOp.acceptCheck "/dst/root" "a",
       FsOp.discardBody 4]
    ∧ ¬ (FsOp.openFileOp "/dst/root/b" 420 ∈ (receiveDir acceptNotA "/dst" true msgsC2).1.effects) := by
  refine ⟨by decide, rfl, rfl, rfl, by decide⟩

/-- C3: the very first `StartDirectoryHeader` is special-cased.  With a
fresh destination (`skipsFirstDirectory = true`) it is consumed without
descending `curDir`, without touching the filesystem and without consulting
the filter; with an existing destination it nests the source's top
directory inside `curDir` and creates it; and only the first one is treated
this way — once the flag is cleared, a start-directory header descends and
creates even when `skipsFirstDirectory` is set. -/
theorem receiveDir_first_start_directory_special_case
    (accept : AcceptFn) (st : RecvState) (mode : Nat) (name : String)
    (h1 : st.isFirstStartDirectory = true)
    (h2 : st.skipBaseDir = "")
    (hacc : accept (filepathDir (filepathJoin st.curDir name))
        ⟨name, 0, mode, true, st.timeHeader.mtime, st.timeHeader.atime⟩ = true) :
    recvStep accept true st (MsgHeader.startDirectoryMsg mode name)
      = ({ st with isFirstStartDirectory := false }, none)
    ∧ (recvStep accept false st (MsgHeader.startDirectoryMsg mode name)).1.curDir
        = filepathJoin st.curDir name
    ∧ FsOp.mkdirAll (filepathJoin st.curDir name) mode
        ∈ (recvStep accept false st (MsgHeader.startDirectoryMsg mode name)).1.effects
    ∧ (recvStep accept true { st with isFirstStartDirectory := false }
        (MsgHeader.startDirectoryMsg mode name)).1.curDir = filepathJoin st.curDir name
    ∧ FsOp.mkdirAll (filepathJoin st.curDir name) mode
        ∈ (recvStep accept true { st with isFirstStartDirectory := false }
            (MsgHeader.startDirectoryMsg mode name)).1.effects := by
  simp only [recvStep, h1, h2, hacc, if_true, if_false, true_and, and_true,
    not_true, false_and, if_neg, ite_true, ite_false]
  simp [hacc]

/-- C3 witness: the special case on a concrete initial state. -/
theorem receiveDir_first_start_directory_special_case_witness :
    recvStep (fun _ _ => true) true
        ⟨"/d", ⟨0, 0⟩, [], true, "", []⟩ (MsgHeader.startDirectoryMsg 493 "x")
      = (⟨"/d", ⟨0, 0⟩, [], false, "", []⟩, none)
    ∧ (recvStep (fun _ _ => true) false
        ⟨"/d", ⟨0, 0⟩, [], true, "", []⟩ (MsgHeader.startDirectoryMsg 493 "x")).1.curDir = "/d/x"
    ∧ (recvStep (fun _ _ => true) true
        ⟨"/d", ⟨0, 0⟩, [], false, "", []⟩ (MsgHeader.startDirectoryMsg 493 "x")).1.curDir = "/d/x" := by
  have h := receiveDir_first_start_directory_special_case (fun _ _ => true)
    ⟨"/d", ⟨0, 0⟩, [], true, "", []⟩ 493 "x" rfl rfl rfl
  exact ⟨h.1, h.2.1, h.2.2.2.1⟩

/-- Every loop iteration only appends to the effect trace. -/
theorem recvStep_effects_extend (accept : AcceptFn) (sf : Bool)
    (st : RecvState) (h : MsgHeader) :
    ∃ tail, (recvStep accept sf st h).1.effects = st.effects ++ tail := by
  cases h with
  | timeMsg mtime atime => exact ⟨[], by simp [recvStep]⟩
  | okMsg => exact ⟨[], by simp [recvStep]⟩
  | startDirectoryMsg mode name =>
    simp only [recvStep]
    split
    · exact ⟨[], by simp⟩
    · split
      · exact ⟨[], by simp⟩
      · split
        · exact ⟨[FsOp.acceptCheck (filepathDir (filepathJoin st.curDir name)) name,
            FsOp.mkdirAll (filepathJoin st.curDir name) mode,
            FsOp.chmodOp (filepathJoin st.curDir name) mode], by simp⟩
        · exact ⟨[FsOp.acceptCheck (filepathDir (filepathJoin st.curDir name)) name], by simp⟩
  | endDirectoryMsg =>
    simp only [recvStep]
    rcases hgl : st.timeHeaders.getLast? with _ | th
    · try simp only [hgl]
      repeat' split
      all_goals exact ⟨[], (List.append_nil _).symm⟩
    · try simp only [hgl]
      repeat' split
      all_goals first
        | exact ⟨[], (List.append_nil _).symm⟩
        | exact ⟨[FsOp.chtimesOp st.curDir th.atime th.mtime], rfl⟩
  | fileMsg mode size name =>
    simp only [recvStep]
    split
    · split
      · split
        · exact ⟨_, List.append_assoc _ _ _⟩
        · exact ⟨_, List.append_assoc _ _ _⟩
      · exact ⟨[FsOp.acceptCheck st.curDir name], rfl⟩
    · exact ⟨[FsOp.discardBody size], rfl⟩

/-- The whole message loop only appends to the effect trace. -/
theorem receiveDirLoop_effects_extend (accept : AcceptFn) (sf : Bool) :
    ∀ (msgs : List MsgHeader) (st : RecvState),
    ∃ tail, (receiveDirLoop accept sf st msgs).1.effects = st.effects ++ tail
  | [], st => ⟨[], by simp [receiveDirLoop]⟩
  | h :: rest, st => by
    simp only [receiveDirLoop]
    rcases hs : recvStep accept sf st h with ⟨st1, err⟩
    obtain ⟨t1, ht1⟩ := recvStep_effects_extend accept sf st h
    rw [hs] at ht1
    cases err with
    | none =>
      obtain ⟨t2, ht2⟩ := receiveDirLoop_effects_extend accept sf rest st1
      exact ⟨t1 ++ t2, by
        rw [ht2, show st1.effects = st.effects ++ t1 from ht1, List.append_assoc]⟩
    | some e => exact ⟨t1, ht1⟩

/-- C10: receiving a directory into a non-existent destination first
creates the destination root (parents included) with mode `0777` via
`MkdirAll` — this is the very first local effect of the call, recorded
before any protocol message is processed and irrespective of how (or
whether) the rest of the run completes — and the first start-directory
header of the stream, the one standing for the root itself, is consumed
without any filter evaluation. -/
theorem receiveDir_fresh_destination_creates_root
    (accept : AcceptFn) (destDir : String) (msgs : List MsgHeader)
    (st : RecvState) (mode : Nat) (name : String)
    (h1 : st.isFirstStartDirectory = true) :
    (∃ tail, (receiveDir accept destDir false msgs).1.effects
        = FsOp.mkdirAll (filepathClean destDir) 0o777 :: tail)
    ∧ (recvStep accept true st (MsgHeader.startDirectoryMsg mode name)).1.effects
        = st.effects := by
  constructor
  · obtain ⟨tail, ht⟩ := receiveDirLoop_effects_extend accept (¬ false)
      msgs { curDir := filepathClean destDir, timeHeader := ⟨0, 0⟩, timeHeaders := [],
             isFirstStartDirectory := true, skipBaseDir := "",
             effects := [FsOp.mkdirAll (filepathClean destDir) 0o777] }
    exact ⟨tail, by simpa [receiveDir] using ht⟩
  · simp [recvStep, h1]

/-- C10 witness: a concrete fresh-destination run. -/
theorem receiveDir_fresh_destination_creates_root_witness :
    (∃ tail, (receiveDir (fun _ _ => true) "/local/dst" false
        [MsgHeader.startDirectoryMsg 493 "top", MsgHeader.endDirectoryMsg]).1.effects
        = FsOp.mkdirAll "/local/dst" 0o777 :: tail)
    ∧ (recvStep (fun _ _ => true) true ⟨"/local/dst", ⟨0, 0⟩, [], true, "", []⟩
        (MsgHeader.startDirectoryMsg 493 "top")).1.effects = [] := by
  have h := receiveDir_fresh_destination_creates_root (fun _ _ => true) "/local/dst"
    [MsgHeader.startDirectoryMsg 493 "top", MsgHeader.endDirectoryMsg]
    ⟨"/local/dst", ⟨0, 0⟩, [], true, "", []⟩ 493 "top" rfl
  refine ⟨?_, h.2⟩
  obtain ⟨tail, ht⟩ := h.1
  exact ⟨tail, by simpa using ht⟩

/-! ## The send-side directory walker (`SendDir`) -/

/-- A local file tree as `filepath.Walk` enumerates it: `entries` are in
the listing order the walk visits them in. -/
inductive FileTree where
  | file (name : String) (mode size mtime atime : Nat)
  | dir (name : String) (mode mtime atime : Nat) (entries : List FileTree)

/-- The base name of an entry. -/
def FileTree.name : FileTree → String
  | FileTree.file n _ _ _ _ => n
  | FileTree.dir n _ _ _ _ => n

/-- The sink-role calls the walker issues. -/
inductive SinkOp where
  | startDir (name : String) (mode : Nat)
  | endDir
  | writeFile (name : String) (mode size : Nat)
  deriving DecidableEq

/-- The closure state of `SendDir`'s handler: `prevDir` is the directory of
the previously visited entry, `prevDirSkipped` records that the previously
visited directory was rejected (so its matching end marker is suppressed),
and `ops` is the emitted call sequence. -/
structure WalkSt where
  prevDir : String
  prevDirSkipped : Bool
  ops : List SinkOp
  deriving DecidableEq

/-- The loop body of `endDirectories`: one `EndDirectory()` per `..`
component of the relative path, except that the first `..` met while
`prevDirSkipped` is set only clears that flag. -/
def endDirsFold (st : WalkSt) : List (List Char) → WalkSt
  | [] => st
  | comp :: rest =>
    if comp = ['.', '.'] then
      if st.prevDirSkipped then endDirsFold { st with prevDirSkipped := false } rest
      else endDirsFold { st with ops := st.ops ++ [SinkOp.endDir] } rest
    else endDirsFold st rest

/-- `endDirectories(prevDir, dir)`: splits `Rel(prevDir, dir)` on the
separator and folds over the components; a `Rel` error aborts the walk. -/
def endDirectories (prevDir dir : String) (st : WalkSt) : Option WalkSt :=
  match filepathRel prevDir dir with
  | none => none
  | some rel => some (endDirsFold st (splitSep rel.data))

mutual

/-- `myWalkFn` plus the recursive descent of `filepath.Walk` for one entry
residing at `path`: close ascended levels, evaluate the filter with the
entry's parent directory, then write the file / start the directory and
descend / mark the directory skipped.  `filepath.Walk`'s deferred
`prevDir = dir` assignment runs before the children are visited. -/
def walkEntry (accept : AcceptFn) (path : String) (t : FileTree) (st : WalkSt) :
    Option WalkSt :=
  match t with
  | FileTree.file name mode size mtime atime =>
    let dir := filepathDir path
    match endDirectories st.prevDir dir st with
    | none => none
    | some st1 =>
      if accept (filepathDir path) ⟨name, size, mode, false, mtime, atime⟩ then
        some { st1 with ops := st1.ops ++ [SinkOp.writeFile name mode size], prevDir := dir }
      else some { st1 with prevDir := dir }
  | FileTree.dir name mode mtime atime entries =>
    match endDirectories st.prevDir path st with
    | none => none
    | some st1 =>
      if accept (filepathDir path) ⟨name, 0, mode, true, mtime, atime⟩ then
        walkEntries accept path entries
          { st1 with ops := st1.ops ++ [SinkOp.startDir name mode], prevDir := path }
      else some { st1 with prevDirSkipped := true, prevDir := path }

/-- The children of a directory at `dirPath`, visited in listing order,
each at `Join(dirPath, child name)`. -/
def walkEntries (accept : AcceptFn) (dirPath : String) (es : List FileTree)
    (st : WalkSt) : Option WalkSt :=
  match es with
  | [] => some st
  | e :: rest =>
    match walkEntry accept (filepathJoin dirPath e.name) e st with
    | none => none
    | some st1 => walkEntries accept dirPath rest st1

end

/-- `SendDir(srcDir, destDir, acceptFn)`'s emitted call sequence: clean the
source directory, walk it from the initial state `prevDir = srcDir`, then
run the trailing `endDirectories(prevDir, srcDir)`. -/
def sendDir (accept : AcceptFn) (srcDir : String) (root : FileTree) : Option WalkSt :=
  let srcDir := filepathClean srcDir
  let st0 : WalkSt := { prevDir := srcDir, prevDirSkipped := false, ops := [] }
  match walkEntry accept srcDir root st0 with
  | none => none
  | some st => endDirectories st.prevDir srcDir st

/-- Number of `StartDirectory` calls in an op sequence. -/
def countStart : List SinkOp → Nat
  | [] => 0
  | SinkOp.startDir _ _ :: rest => countStart rest + 1
  | _ :: rest => countStart rest

/-- Number of `EndDirectory` calls in an op sequence. -/
def countEnd : List SinkOp → Nat
  | [] => 0
  | SinkOp.endDir :: rest => countEnd rest + 1
  | _ :: rest => countEnd rest

/-- Runs an op sequence against a directory-nesting depth: `startDir`
pushes, `endDir` pops, anything else is neutral; the result is the final
depth, or `none` if some prefix pops below the starting depth. -/
def balRun : Nat → List SinkOp → Option Nat
  | d, [] => some d
  | d, SinkOp.endDir :: rest => if d = 0 then none else balRun (d - 1) rest
  | d, SinkOp.startDir _ _ :: rest => balRun (d + 1) rest
  | d, _ :: rest => balRun d rest

/-- C4 (counterexample): `EndDirectory` calls do **not** balance
`StartDirectory` calls 1:1 — the walk of a one-file tree under an accepted
root emits the root's `StartDirectory` and no `EndDirectory` at all: the
trailing `endDirectories(prevDir, srcDir)` climbs only up to the root and
never closes the root's own start marker. -/
theorem sendDir_root_start_never_closed :
    sendDir (fun _ _ => true) "/s"
        (FileTree.dir "s" 493 0 0 [FileTree.file "f" 420 3 0 0])
      = some ⟨"/s", false, [SinkOp.startDir "s" 493, SinkOp.writeFile "f" 420 3]⟩
    ∧ countStart [SinkOp.startDir "s" 493, SinkOp.writeFile "f" 420 3] = 1
    ∧ countEnd [SinkOp.startDir "s" 493, SinkOp.writeFile "f" 420 3] = 0 := by
  exact ⟨rfl, rfl, rfl⟩

/-! ## Groundwork: algebra of the path model on well-formed components -/

/-- A well-formed path component: nonempty, separator-free, and neither of
the special elements `.` and `..`. -/
def WfComp (c : List Char) : Prop :=
  c ≠ [] ∧ sepChar ∉ c ∧ c ≠ ['.'] ∧ c ≠ ['.', '.']

instance : DecidablePred WfComp := fun c => by
  unfold WfComp
  infer_instance

theorem stringDataInj {a b : String} (h : a.data = b.data) : a = b := by
  cases a
  cases b
  exact congrArg String.mk h

theorem strData_append (a b : String) : (a ++ b).data = a.data ++ b.data := rfl

theorem string_mk_ne_empty {l : List Char} (h : l ≠ []) : String.mk l ≠ "" := by
  intro he
  exact h (congrArg String.data he)

theorem splitSep_ne_nil (l : List Char) : splitSep l ≠ [] := by
  induction l with
  | nil => simp [splitSep]
  | cons c rest ih =>
    simp only [splitSep]
    split
    · simp
    · split <;> simp

theorem mem_splitSep_sep_not_mem (l : List Char) :
    ∀ c ∈ splitSep l, sepChar ∉ c := by
  induction l with
  | nil => intro c hc; simp [splitSep] at hc; simp [hc]
  | cons a rest ih =>
    intro c hc
    by_cases ha : a = sepChar
    · simp only [splitSep, ha, if_pos rfl] at hc
      rcases List.mem_cons.mp hc with hc | hc
      · simp [hc]
      · exact ih c hc
    · simp only [splitSep, if_neg ha] at hc
      rcases hsp : splitSep rest with _ | ⟨p, ps⟩
      · exact absurd hsp (splitSep_ne_nil rest)
      · rw [hsp] at hc
        rcases List.mem_cons.mp hc with hc | hc
        · subst hc
          intro hmem
          rcases List.mem_cons.mp hmem with hmem | hmem
          · exact ha hmem.symm
          · exact ih p (by rw [hsp]; exact List.mem_cons_self p ps) hmem
        · exact ih c (by rw [hsp]; exact List.mem_cons_of_mem p hc)

theorem splitSep_sepFree (a : List Char) (ha : sepChar ∉ a) : splitSep a = [a] := by
  induction a with
  | nil => rfl
  | cons c rest ih =>
    have hc : ¬ c = sepChar := by intro h; exact ha (by simp [h])
    have hr : sepChar ∉ rest := fun h => ha (by simp [h])
    simp only [splitSep, if_neg hc, ih hr]

theorem splitSep_append_sep (a l : List Char) (ha : sepChar ∉ a) :
    splitSep (a ++ sepChar :: l) = a :: splitSep l := by
  induction a with
  | nil => simp [splitSep]
  | cons c rest ih =>
    have hc : ¬ c = sepChar := by intro h; exact ha (by simp [h])
    have hr : sepChar ∉ rest := fun h => ha (by simp [h])
    simp [splitSep, hc, ih hr]

theorem splitSep_append_last_sep (l : List Char) :
    splitSep (l ++ [sepChar]) = splitSep l ++ [[]] := by
  induction l with
  | nil => rfl
  | cons c rest ih =>
    by_cases hc : c = sepChar
    · simp [splitSep, hc, ih]
    · simp only [List.cons_append, splitSep, if_neg hc]
      rcases hsp : splitSep rest with _ | ⟨p, ps⟩
      · exact absurd hsp (splitSep_ne_nil rest)
      · simp only [List.append_eq]
        rw [ih, hsp]
        simp

theorem joinSep_append_single (cs : List (List Char)) (n : List Char) (h : cs ≠ []) :
    joinSep (cs ++ [n]) = joinSep cs ++ sepChar :: n := by
  induction cs with
  | nil => exact absurd rfl h
  | cons c rest ih =>
    cases rest with
    | nil => rfl
    | cons c2 rest2 =>
      have h2 := ih (by simp)
      calc joinSep ((c :: c2 :: rest2) ++ [n])
          = c ++ sepChar :: joinSep ((c2 :: rest2) ++ [n]) := rfl
        _ = c ++ sepChar :: (joinSep (c2 :: rest2) ++ sepChar :: n) := by rw [h2]
        _ = (c ++ sepChar :: joinSep (c2 :: rest2)) ++ sepChar :: n := by simp
        _ = joinSep (c :: c2 :: rest2) ++ sepChar :: n := rfl

theorem splitSep_joinSep (cs : List (List Char)) (h : cs ≠ [])
    (hfree : ∀ c ∈ cs, sepChar ∉ c) : splitSep (joinSep cs) = cs := by
  induction cs with
  | nil => exact absurd rfl h
  | cons c rest ih =>
    cases rest with
    | nil => exact splitSep_sepFree c (hfree c (by simp))
    | cons c2 rest2 =>
      have hstep : joinSep (c :: c2 :: rest2) = c ++ sepChar :: joinSep (c2 :: rest2) := rfl
      rw [hstep, splitSep_append_sep c _ (hfree c (by simp)),
        ih (by simp) (fun x hx => hfree x (by simp [hx]))]

theorem joinSep_ne_nil (cs : List (List Char)) (h : cs ≠ [])
    (hne : ∀ c ∈ cs, c ≠ []) : joinSep cs ≠ [] := by
  cases cs with
  | nil => exact absurd rfl h
  | cons c rest =>
    cases rest with
    | nil => exact hne c (by simp)
    | cons c2 rest2 =>
      simp only [joinSep]
      intro hx
      have := congrArg List.length hx
      simp at this

theorem renderAbs_data (cs : List (List Char)) :
    (renderAbs cs).data = sepChar :: joinSep cs := rfl

theorem isRooted_renderAbs (cs : List (List Char)) : isRooted (renderAbs cs) = true := by
  simp [isRooted, renderAbs]

theorem renderAbs_ne_empty (cs : List (List Char)) : renderAbs cs ≠ "" :=
  string_mk_ne_empty (by simp)

theorem wfComps_ne_nil {cs : List (List Char)} (h : ∀ c ∈ cs, WfComp c) :
    ∀ c ∈ cs, c ≠ [] := fun c hc => (h c hc).1

theorem wfComps_sepFree {cs : List (List Char)} (h : ∀ c ∈ cs, WfComp c) :
    ∀ c ∈ cs, sepChar ∉ c := fun c hc => (h c hc).2.1

theorem renderAbs_inj {a b : List (List Char)}
    (ha : ∀ c ∈ a, WfComp c) (hb : ∀ c ∈ b, WfComp c)
    (h : renderAbs a = renderAbs b) : a = b := by
  have hd : joinSep a = joinSep b := by
    have := congrArg String.data h
    simpa [renderAbs] using this
  rcases List.eq_nil_or_concat a with hae | ⟨_, _, rfl⟩
  · subst hae
    rcases List.eq_nil_or_concat b with hbe | ⟨bs, bn, rfl⟩
    · exact hbe.symm
    · exact absurd hd.symm (joinSep_ne_nil _ (by simp) (wfComps_ne_nil hb))
  · rcases List.eq_nil_or_concat b with hbe | ⟨bs, bn, rfl⟩
    · subst hbe
      exact absurd hd (joinSep_ne_nil _ (by simp) (wfComps_ne_nil ha))
    · have h1 := splitSep_joinSep _ (by simp) (wfComps_sepFree ha)
      have h2 := splitSep_joinSep _ (by simp) (wfComps_sepFree hb)
      rw [← h1, ← h2, hd]

theorem cleanLoop_wf_id (rooted : Bool) (out cs : List (List Char))
    (h : ∀ c ∈ cs, WfComp c) : cleanLoop rooted out cs = out ++ cs := by
  induction cs generalizing out with
  | nil => simp [cleanLoop]
  | cons c rest ih =>
    obtain ⟨h1, _, h3, h4⟩ := h c (by simp)
    have hcond : ¬ (c = [] ∨ c = ['.']) := by
      rintro (rfl | rfl)
      · exact h1 rfl
      · exact h3 rfl
    simp only [cleanLoop, if_neg hcond, if_neg h4]
    rw [ih (out ++ [c]) (fun x hx => h x (by simp [hx]))]
    simp

theorem cleanLoop_wf_trailing_empty (rooted : Bool) (out cs : List (List Char))
    (h : ∀ c ∈ cs, WfComp c) : cleanLoop rooted out (cs ++ [[]]) = out ++ cs := by
  induction cs generalizing out with
  | nil => simp [cleanLoop]
  | cons c rest ih =>
    obtain ⟨h1, _, h3, h4⟩ := h c (by simp)
    have hcond : ¬ (c = [] ∨ c = ['.']) := by
      rintro (rfl | rfl)
      · exact h1 rfl
      · exact h3 rfl
    simp only [List.cons_append, cleanLoop, if_neg hcond, if_neg h4, List.append_eq]
    rw [ih (out ++ [c]) (fun x hx => h x (by simp [hx]))]
    simp

theorem mem_of_getLast?_eq_some {α : Type} {l : List α} {a : α}
    (h : l.getLast? = some a) : a ∈ l := by
  obtain ⟨hne, heq⟩ := List.mem_getLast?_eq_getLast (Option.mem_def.mpr h)
  exact heq ▸ List.getLast_mem hne

theorem cleanLoop_rooted_wf (cs : List (List Char)) :
    ∀ out, (∀ c ∈ out, WfComp c) → (∀ c ∈ cs, sepChar ∉ c) →
    ∀ c ∈ cleanLoop true out cs, WfComp c := by
  induction cs with
  | nil => intro out hout _ c hc; exact hout c hc
  | cons c rest ih =>
    intro out hout hfree x hx
    simp only [cleanLoop] at hx
    by_cases hcond : c = [] ∨ c = ['.']
    · rw [if_pos hcond] at hx
      exact ih out hout (fun y hy => hfree y (by simp [hy])) x hx
    · rw [if_neg hcond] at hx
      by_cases hdd : c = ['.', '.']
      · rw [if_pos hdd] at hx
        split at hx
        · rw [if_pos trivial] at hx
          exact ih out hout (fun y hy => hfree y (by simp [hy])) x hx
        · rename_i l heq
          have hl : WfComp l := hout l (mem_of_getLast?_eq_some heq)
          rw [if_neg hl.2.2.2] at hx
          exact ih out.dropLast
            (fun y hy => hout y (List.dropLast_subset out hy))
            (fun y hy => hfree y (by simp [hy])) x hx
      · rw [if_neg hdd] at hx
        have hcwf : WfComp c := by
          refine ⟨?_, hfree c (by simp), ?_, hdd⟩
          · intro hh; exact hcond (Or.inl hh)
          · intro hh; exact hcond (Or.inr hh)
        refine ih (out ++ [c]) ?_ (fun y hy => hfree y (by simp [hy])) x hx
        intro y hy
        rcases List.mem_append.mp hy with hy | hy
        · exact hout y hy
        · simp at hy
          subst hy
          exact hcwf

theorem cleanedComps_wf (s : String) (h : isRooted s = true) :
    ∀ c ∈ cleanedComps s, WfComp c := by
  unfold cleanedComps
  rw [h]
  exact cleanLoop_rooted_wf _ [] (by simp) (mem_splitSep_sep_not_mem s.data)

theorem cleanedComps_renderAbs (cs : List (List Char)) (h : ∀ c ∈ cs, WfComp c) :
    cleanedComps (renderAbs cs) = cs := by
  unfold cleanedComps
  rw [isRooted_renderAbs, renderAbs_data]
  have hsplit : splitSep (sepChar :: joinSep cs) = [] :: splitSep (joinSep cs) := by
    simp [splitSep]
  rw [hsplit]
  rcases eq_or_ne cs [] with rfl | hne
  · rfl
  · rw [splitSep_joinSep cs hne (wfComps_sepFree h)]
    have hstep : cleanLoop true [] ([] :: cs) = cleanLoop true [] cs := by
      simp [cleanLoop]
    rw [hstep, cleanLoop_wf_id true [] cs h]
    simp

theorem filepathClean_renderAbs (cs : List (List Char)) (h : ∀ c ∈ cs, WfComp c) :
    filepathClean (renderAbs cs) = renderAbs cs := by
  unfold filepathClean
  rw [if_neg (renderAbs_ne_empty cs), isRooted_renderAbs, cleanedComps_renderAbs cs h]
  simp

theorem filepathJoin_renderAbs (cs : List (List Char)) (n : List Char)
    (hcs : ∀ c ∈ cs, WfComp c) (hn : WfComp n) :
    filepathJoin (renderAbs cs) (String.mk n) = renderAbs (cs ++ [n]) := by
  have ha : renderAbs cs ≠ "" := renderAbs_ne_empty cs
  have hb : String.mk n ≠ "" := string_mk_ne_empty hn.1
  have hwf : ∀ c ∈ cs ++ [n], WfComp c := by
    intro c hc
    rcases List.mem_append.mp hc with hc | hc
    · exact hcs c hc
    · simp at hc
      subst hc
      exact hn
  unfold filepathJoin
  rw [if_neg (by rintro ⟨h1, _⟩; exact ha h1), if_neg ha, if_neg hb]
  have hdata : (renderAbs cs ++ "/" ++ String.mk n).data
      = sepChar :: (joinSep cs ++ sepChar :: n) := by
    rw [strData_append, strData_append, renderAbs_data]
    rw [show "/".data = [sepChar] from rfl]
    simp
  rcases eq_or_ne cs [] with rfl | hne
  · have hstr : renderAbs [] ++ "/" ++ String.mk n = String.mk [sepChar, sepChar] ++ String.mk n := by
      apply stringDataInj
      rw [hdata]
      rfl
    rw [hstr]
    unfold filepathClean
    rw [if_neg (by apply string_mk_ne_empty; simp [strData_append])]
    have hroot : isRooted (String.mk [sepChar, sepChar] ++ String.mk n) = true := by
      simp [isRooted, strData_append]
    rw [hroot]
    have hcomps : cleanedComps (String.mk [sepChar, sepChar] ++ String.mk n) = [n] := by
      unfold cleanedComps
      rw [hroot]
      have : (String.mk [sepChar, sepChar] ++ String.mk n).data = sepChar :: sepChar :: n := rfl
      rw [this]
      have hsplit : splitSep (sepChar :: sepChar :: n) = [] :: [] :: splitSep n := by
        simp [splitSep]
      rw [hsplit, splitSep_sepFree n hn.2.1]
      have h1 : cleanLoop true [] [[], [], n] = cleanLoop true [] [n] := by
        simp [cleanLoop]
      rw [h1, cleanLoop_wf_id true [] [n] (by simpa using hn)]
      simp
    rw [hcomps]
    rfl
  · have hstr : renderAbs cs ++ "/" ++ String.mk n = renderAbs (cs ++ [n]) := by
      apply stringDataInj
      rw [hdata, renderAbs_data, joinSep_append_single cs n hne]
    rw [hstr, filepathClean_renderAbs _ hwf]

theorem dropWhileNotSep (n l : List Char) (hn : sepChar ∉ n) :
    List.dropWhile (fun c => ¬ c = sepChar) (n ++ sepChar :: l) = sepChar :: l := by
  induction n with
  | nil => simp [List.dropWhile]
  | cons c rest ih =>
    have hc : ¬ c = sepChar := fun h => hn (by simp [h])
    have hr : sepChar ∉ rest := fun h => hn (by simp [h])
    simp only [List.cons_append, List.dropWhile, decide_not]
    rw [decide_eq_false hc]
    simpa [decide_not] using ih hr

theorem takeToLastSep_append (pre n : List Char) (hn : sepChar ∉ n) :
    takeToLastSep (pre ++ sepChar :: n) = pre ++ [sepChar] := by
  unfold takeToLastSep
  rw [List.reverse_append]
  rw [show (sepChar :: n).reverse = n.reverse ++ [sepChar] by simp, List.append_assoc]
  rw [show [sepChar] ++ pre.reverse = sepChar :: pre.reverse from rfl]
  rw [dropWhileNotSep n.reverse pre.reverse (fun h => hn (List.mem_reverse.mp h))]
  simp

theorem filepathDir_renderAbs (cs : List (List Char)) (n : List Char)
    (h : ∀ c ∈ cs ++ [n], WfComp c) :
    filepathDir (renderAbs (cs ++ [n])) = renderAbs cs := by
  have hcs : ∀ c ∈ cs, WfComp c := fun c hc => h c (by simp [hc])
  have hn : WfComp n := h n (by simp)
  unfold filepathDir
  rcases eq_or_ne cs [] with rfl | hne
  · have hdata : (renderAbs ([] ++ [n])).data = [] ++ sepChar :: n := by
      rw [renderAbs_data]
      rfl
    rw [hdata, takeToLastSep_append [] n hn.2.1]
    rfl
  · have hdata : (renderAbs (cs ++ [n])).data = (sepChar :: joinSep cs) ++ sepChar :: n := by
      rw [renderAbs_data, joinSep_append_single cs n hne]
      rfl
    rw [hdata, takeToLastSep_append _ n hn.2.1]
    unfold filepathClean
    rw [if_neg (string_mk_ne_empty (by simp))]
    have hroot : isRooted (String.mk ((sepChar :: joinSep cs) ++ [sepChar])) = true := by
      simp [isRooted]
    rw [hroot]
    have hcomps : cleanedComps (String.mk ((sepChar :: joinSep cs) ++ [sepChar])) = cs := by
      unfold cleanedComps
      rw [hroot]
      have hd : (String.mk ((sepChar :: joinSep cs) ++ [sepChar])).data
          = (sepChar :: joinSep cs) ++ [sepChar] := rfl
      rw [hd]
      have hsplit : splitSep ((sepChar :: joinSep cs) ++ [sepChar])
          = [] :: (splitSep (joinSep cs) ++ [[]]) := by
        rw [show (sepChar :: joinSep cs) ++ [sepChar] = sepChar :: (joinSep cs ++ [sepChar]) from rfl]
        have : splitSep (sepChar :: (joinSep cs ++ [sepChar]))
            = [] :: splitSep (joinSep cs ++ [sepChar]) := by simp [splitSep]
        rw [this, splitSep_append_last_sep]
      rw [hsplit, splitSep_joinSep cs hne (wfComps_sepFree hcs)]
      have h1 : cleanLoop true [] ([] :: (cs ++ [[]])) = cleanLoop true [] (cs ++ [[]]) := by
        simp [cleanLoop]
      rw [h1, cleanLoop_wf_trailing_empty true [] cs hcs]
      simp
    rw [hcomps]
    simp

theorem commonPrefixLen_append (x a b : List (List Char)) :
    commonPrefixLen (x ++ a) (x ++ b) = x.length + commonPrefixLen a b := by
  induction x with
  | nil => simp
  | cons c rest ih =>
    simp only [List.cons_append, commonPrefixLen]
    simp [ih]
    omega

theorem commonPrefixLen_nil_right (a : List (List Char)) : commonPrefixLen a [] = 0 := by
  cases a <;> rfl

theorem commonPrefixLen_self (a : List (List Char)) : commonPrefixLen a a = a.length := by
  induction a with
  | nil => rfl
  | cons c rest ih => simp [commonPrefixLen, ih]

theorem commonPrefixLen_eq_zero_of_head (a b : List (List Char))
    (h : a.head? ≠ b.head? ∨ a = [] ∨ b = []) : commonPrefixLen a b = 0 := by
  cases a with
  | nil => rfl
  | cons ah at_ =>
    cases b with
    | nil => rfl
    | cons bh bt =>
      rcases h with h | h | h
      · have hne : ah ≠ bh := by
          intro he
          exact h (by simp [he])
        simp [commonPrefixLen, hne]
      · exact absurd h (by simp)
      · exact absurd h (by simp)

/-- `filepath.Rel` of a path with itself is `"."`. -/
theorem filepathRel_self (p : String) : filepathRel p p = some "." := by
  simp [filepathRel]

/-- `filepath.Rel` between two absolute paths below a common prefix `x`
whose remainders have no common head: one `..` per remaining base
component, then the target remainder. -/
theorem filepathRel_renderAbs (x a b : List (List Char))
    (hx : ∀ c ∈ x, WfComp c) (ha : ∀ c ∈ a, WfComp c) (hb : ∀ c ∈ b, WfComp c)
    (hhead : commonPrefixLen a b = 0) (hne : ¬ (a = [] ∧ b = [])) :
    filepathRel (renderAbs (x ++ a)) (renderAbs (x ++ b))
      = some (String.mk (joinSep (List.replicate a.length ['.', '.'] ++ b))) := by
  have hxa : ∀ c ∈ x ++ a, WfComp c := by
    intro c hc
    rcases List.mem_append.mp hc with hc | hc
    · exact hx c hc
    · exact ha c hc
  have hxb : ∀ c ∈ x ++ b, WfComp c := by
    intro c hc
    rcases List.mem_append.mp hc with hc | hc
    · exact hx c hc
    · exact hb c hc
  have hab : ¬ (a = b) := by
    intro he
    subst he
    rcases eq_or_ne a [] with rfl | hane
    · exact hne ⟨rfl, rfl⟩
    · rw [commonPrefixLen_self] at hhead
      exact hane (List.length_eq_zero.mp hhead)
  unfold filepathRel
  rw [filepathClean_renderAbs _ hxa, filepathClean_renderAbs _ hxb]
  rw [if_neg (by
    intro he
    exact hab (List.append_cancel_left (renderAbs_inj hxb hxa he)).symm)]
  rw [isRooted_renderAbs, isRooted_renderAbs]
  rw [if_neg (by simp)]
  rw [cleanedComps_renderAbs _ hxa, cleanedComps_renderAbs _ hxb]
  show (if (List.drop (commonPrefixLen (x ++ a) (x ++ b)) (x ++ a)).head? = some ['.', '.']
      then none
      else some (String.mk (joinSep
        (List.replicate ((x ++ a).length - commonPrefixLen (x ++ a) (x ++ b)) ['.', '.']
          ++ List.drop (commonPrefixLen (x ++ a) (x ++ b)) (x ++ b))))) =
    some (String.mk (joinSep (List.replicate a.length ['.', '.'] ++ b)))
  rw [commonPrefixLen_append x a b, hhead, Nat.add_zero]
  rw [List.drop_left, List.drop_left]
  rw [if_neg (by
    cases a with
    | nil => simp
    | cons ah at_ =>
      simp only [List.head?_cons]
      intro he
      have hwa := (ha ah (by simp)).2.2.2
      simp at he
      exact hwa he)]
  rw [List.length_append, Nat.add_sub_cancel_left]

theorem endDirsFold_append (st : WalkSt) (x y : List (List Char)) :
    endDirsFold st (x ++ y) = endDirsFold (endDirsFold st x) y := by
  induction x generalizing st with
  | nil => rfl
  | cons c rest ih =>
    simp only [List.cons_append, endDirsFold]
    split
    · split <;> exact ih _
    · exact ih _

theorem endDirsFold_no_dd (st : WalkSt) (cs : List (List Char))
    (h : ∀ c ∈ cs, c ≠ ['.', '.']) : endDirsFold st cs = st := by
  induction cs with
  | nil => rfl
  | cons c rest ih =>
    simp only [endDirsFold, if_neg (h c (by simp))]
    exact ih (fun x hx => h x (by simp [hx]))

theorem endDirsFold_cons_dd_false (st : WalkSt) (rest : List (List Char))
    (h : st.prevDirSkipped = false) :
    endDirsFold st (['.', '.'] :: rest)
      = endDirsFold ⟨st.prevDir, false, st.ops ++ [SinkOp.endDir]⟩ rest := by
  cases st
  simp_all [endDirsFold]

theorem endDirsFold_cons_dd_true (st : WalkSt) (rest : List (List Char))
    (h : st.prevDirSkipped = true) :
    endDirsFold st (['.', '.'] :: rest)
      = endDirsFold ⟨st.prevDir, false, st.ops⟩ rest := by
  cases st
  simp_all [endDirsFold]

theorem endDirsFold_replicate_false (st : WalkSt) (k : Nat)
    (h : st.prevDirSkipped = false) :
    endDirsFold st (List.replicate k ['.', '.'])
      = ⟨st.prevDir, false, st.ops ++ List.replicate k SinkOp.endDir⟩ := by
  induction k generalizing st with
  | zero =>
    cases st
    simp_all [endDirsFold]
  | succ k ih =>
    rw [List.replicate_succ, endDirsFold_cons_dd_false st _ h,
      ih ⟨st.prevDir, false, st.ops ++ [SinkOp.endDir]⟩ rfl]
    simp [List.replicate_succ]

theorem endDirsFold_replicate_true (st : WalkSt) (k : Nat)
    (h : st.prevDirSkipped = true) (hk : 1 ≤ k) :
    endDirsFold st (List.replicate k ['.', '.'])
      = ⟨st.prevDir, false, st.ops ++ List.replicate (k - 1) SinkOp.endDir⟩ := by
  rcases k with _ | k
  · omega
  · rw [List.replicate_succ, endDirsFold_cons_dd_true st _ h,
      endDirsFold_replicate_false ⟨st.prevDir, false, st.ops⟩ k rfl]
    simp

theorem balRun_append (d : Nat) (x y : List SinkOp) :
    balRun d (x ++ y) = (balRun d x).bind (fun d2 => balRun d2 y) := by
  induction x generalizing d with
  | nil => simp [balRun]
  | cons op rest ih =>
    cases op with
    | startDir n m => simp only [List.cons_append, balRun]; exact ih (d + 1)
    | endDir =>
      simp only [List.cons_append, balRun]
      by_cases hd : d = 0
      · simp [hd]
      · rw [if_neg hd, if_neg hd]
        exact ih (d - 1)
    | writeFile n m s => simp only [List.cons_append, balRun]; exact ih d

theorem balRun_replicate_end (k d : Nat) (h : k ≤ d) :
    balRun d (List.replicate k SinkOp.endDir) = some (d - k) := by
  induction k generalizing d with
  | zero => simp [balRun]
  | succ k ih =>
    rw [List.replicate_succ]
    simp only [balRun]
    rw [if_neg (by omega)]
    rw [ih (d - 1) (by omega)]
    congr 1
    omega

theorem balRun_counts (ops : List SinkOp) :
    ∀ d d2, balRun d ops = some d2 → d + countStart ops = d2 + countEnd ops := by
  induction ops with
  | nil =>
    intro d d2 h
    simp [balRun] at h
    simp [countStart, countEnd, h]
  | cons op rest ih =>
    intro d d2 h
    cases op with
    | startDir n m =>
      simp only [balRun] at h
      have := ih (d + 1) d2 h
      simp only [countStart, countEnd]
      omega
    | endDir =>
      simp only [balRun] at h
      by_cases hd : d = 0
      · rw [if_pos hd] at h
        cases h
      · rw [if_neg hd] at h
        have := ih (d - 1) d2 h
        simp only [countStart, countEnd]
        omega
    | writeFile n m s =>
      simp only [balRun] at h
      have := ih d d2 h
      simp only [countStart, countEnd]
      omega

/-! ## Well-formed trees and the walker's balance invariant -/

mutual

/-- Well-formedness of a tree: every entry name is a single well-formed
path component and sibling names are distinct (true of any real directory
listing). -/
def wfTree : FileTree → Bool
  | FileTree.file n _ _ _ _ => decide (WfComp n.data)
  | FileTree.dir n _ _ _ es =>
    decide (WfComp n.data) && decide ((es.map FileTree.name).Nodup) && wfTreeList es

/-- `wfTree` for every tree of a list. -/
def wfTreeList : List FileTree → Bool
  | [] => true
  | e :: rest => wfTree e && wfTreeList rest

end

mutual

/-- Number of entries of a tree (for strong induction). -/
def treeSize : FileTree → Nat
  | FileTree.file _ _ _ _ _ => 1
  | FileTree.dir _ _ _ _ es => treesSize es + 1

/-- Total number of entries of a list of trees. -/
def treesSize : List FileTree → Nat
  | [] => 0
  | e :: rest => treeSize e + treesSize rest

end

theorem treeSize_pos (t : FileTree) : 1 ≤ treeSize t := by
  cases t <;> simp [treeSize]

theorem string_eta (s : String) : String.mk s.data = s := by
  cases s
  rfl

/-- `endDirectories` between two absolute paths below the common prefix
`x`: it pops one level per remaining component of the previous directory,
suppressing one `End` when the skip flag is set, and always leaves the flag
cleared. -/
theorem endDirectories_renderAbs (x extra tgt : List (List Char)) (st : WalkSt)
    (hx : ∀ c ∈ x, WfComp c) (hextra : ∀ c ∈ extra, WfComp c)
    (htgt : ∀ c ∈ tgt, WfComp c)
    (hhead : commonPrefixLen extra tgt = 0)
    (hskip : st.prevDirSkipped = true → extra ≠ []) :
    endDirectories (renderAbs (x ++ extra)) (renderAbs (x ++ tgt)) st
      = some ⟨st.prevDir, false,
          st.ops ++ List.replicate (extra.length - (if st.prevDirSkipped then 1 else 0))
            SinkOp.endDir⟩ := by
  by_cases hboth : extra = [] ∧ tgt = []
  · obtain ⟨rfl, rfl⟩ := hboth
    have hf : st.prevDirSkipped = false := by
      cases hfl : st.prevDirSkipped
      · rfl
      · exact absurd rfl (hskip hfl)
    unfold endDirectories
    rw [filepathRel_self]
    show some (endDirsFold st (splitSep (".").data)) = _
    rw [show splitSep (".").data = [['.']] from rfl]
    rw [endDirsFold_no_dd st [['.']] (by decide)]
    cases st
    simp_all
  · unfold endDirectories
    rw [filepathRel_renderAbs x extra tgt hx hextra htgt hhead hboth]
    have hRne : List.replicate extra.length ['.', '.'] ++ tgt ≠ [] := by
      intro h
      rw [List.append_eq_nil] at h
      obtain ⟨h1, h2⟩ := h
      exact hboth ⟨List.length_eq_zero.mp (by simpa using congrArg List.length h1), h2⟩
    have hRfree : ∀ c ∈ List.replicate extra.length ['.', '.'] ++ tgt, sepChar ∉ c := by
      intro c hc
      rcases List.mem_append.mp hc with hc | hc
      · rw [List.eq_of_mem_replicate hc]
        decide
      · exact (htgt c hc).2.1
    show some (endDirsFold st (splitSep (String.mk
      (joinSep (List.replicate extra.length ['.', '.'] ++ tgt))).data)) = _
    rw [show (String.mk (joinSep (List.replicate extra.length ['.', '.'] ++ tgt))).data
      = joinSep (List.replicate extra.length ['.', '.'] ++ tgt) from rfl]
    rw [splitSep_joinSep _ hRne hRfree, endDirsFold_append]
    have htgt_no_dd : ∀ c ∈ tgt, c ≠ ['.', '.'] := fun c hc => (htgt c hc).2.2.2
    cases hfl : st.prevDirSkipped
    · rw [endDirsFold_replicate_false st _ hfl, endDirsFold_no_dd _ tgt htgt_no_dd]
      simp
    · have hex1 : 1 ≤ extra.length := by
        have := hskip hfl
        cases extra
        · exact absurd rfl this
        · simp
      rw [endDirsFold_replicate_true st _ hfl hex1, endDirsFold_no_dd _ tgt htgt_no_dd]
      simp

/-- Depth bookkeeping for the `End` run emitted by `endDirectories`. -/
theorem bal_after_ends (st : WalkSt) (dsl exl : Nat)
    (hbal : balRun 0 st.ops = some (dsl + exl + (if st.prevDirSkipped then 0 else 1)))
    (hskip : st.prevDirSkipped = true → 1 ≤ exl) :
    balRun 0 (st.ops ++ List.replicate (exl - (if st.prevDirSkipped then 1 else 0))
        SinkOp.endDir) = some (dsl + 1) := by
  rw [balRun_append, hbal]
  show balRun (dsl + exl + (if st.prevDirSkipped then 0 else 1))
    (List.replicate (exl - (if st.prevDirSkipped then 1 else 0)) SinkOp.endDir) = some (dsl + 1)
  cases hfl : st.prevDirSkipped
  · rw [if_neg (show ¬ (false = true) by simp), if_neg (show ¬ (false = true) by simp)]
    rw [balRun_replicate_end _ _ (by omega)]
    congr 1
    omega
  · have hx1 := hskip hfl
    rw [if_pos rfl, if_pos rfl]
    rw [balRun_replicate_end _ _ (by omega)]
    congr 1
    omega

theorem walkEntries_cons_eq (accept : AcceptFn) (dirPath : String) (e : FileTree)
    (rest : List FileTree) (st st1 : WalkSt)
    (h : walkEntry accept (filepathJoin dirPath e.name) e st = some st1) :
    walkEntries accept dirPath (e :: rest) st = walkEntries accept dirPath rest st1 := by
  simp only [walkEntries, h]

theorem walkEntry_file_eq (accept : AcceptFn) (path : String) (st : WalkSt)
    (n : String) (m sz mt at_ : Nat) (p : String) (sk : Bool) (ops1 : List SinkOp)
    (h1 : endDirectories st.prevDir (filepathDir path) st = some ⟨p, sk, ops1⟩) :
    walkEntry accept path (FileTree.file n m sz mt at_) st
      = if accept (filepathDir path) ⟨n, sz, m, false, mt, at_⟩
        then some ⟨filepathDir path, sk, ops1 ++ [SinkOp.writeFile n m sz]⟩
        else some ⟨filepathDir path, sk, ops1⟩ := by
  simp only [walkEntry, h1]

theorem walkEntry_dir_eq (accept : AcceptFn) (path : String) (st : WalkSt)
    (n : String) (m mt at_ : Nat) (entries : List FileTree)
    (p : String) (sk : Bool) (ops1 : List SinkOp)
    (h1 : endDirectories st.prevDir path st = some ⟨p, sk, ops1⟩) :
    walkEntry accept path (FileTree.dir n m mt at_ entries) st
      = if accept (filepathDir path) ⟨n, 0, m, true, mt, at_⟩
        then walkEntries accept path entries ⟨path, sk, ops1 ++ [SinkOp.startDir n m]⟩
        else some ⟨path, true, ops1⟩ := by
  simp only [walkEntry, h1]

theorem balRun_shift (l : List SinkOp) : ∀ d v, balRun d l = some v →
    balRun (d + 1) l = some (v + 1) := by
  induction l with
  | nil =>
    intro d v h
    simp only [balRun, Option.some.injEq] at h
    simp [balRun, h]
  | cons op rest ih =>
    intro d v h
    cases op with
    | startDir n m =>
      simp only [balRun] at h ⊢
      exact ih (d + 1) v h
    | endDir =>
      simp only [balRun] at h ⊢
      by_cases hd : d = 0
      · rw [if_pos hd] at h
        cases h
      · rw [if_neg hd] at h
        rw [if_neg (by omega)]
        have hh := ih (d - 1) v h
        rw [show d + 1 - 1 = (d - 1) + 1 by omega]
        exact hh
    | writeFile n m s =>
      simp only [balRun] at h ⊢
      exact ih d v h

/-- The number of `End`s `endDirectories` emits from a state at `extra`
above the current level equals the nesting it has to give back: one per
component of `extra`, minus the suppressed one, which is exactly
`extra.length + (1 unless skipping) - 1`. -/
theorem ends_emitted_eq_depth_above (extra : List (List Char)) (s : Bool) :
    extra.length - (if s then 1 else 0)
      = extra.length + (if s then 0 else 1) - 1 := by
  cases s <;> simp

/-- The walker's central invariant: visiting a well-formed entry list of
the directory `B ++ ds` from a state whose `prevDir` lies at
`B ++ ds ++ extra` — with the skip flag set only when `extra` is nonempty
and no remaining sibling named like the head of `extra` — succeeds, only
appends to the op sequence, and the appended chunk, run from the depth
`extra.length (+1 unless skipping) - 1` it stands above the listing's own
level, never pops below that level and ends at the corresponding depth of
the final position.  (Depth 0 of this relative count is the level opened by
the `StartDirectory` of the directory being listed, so the chunk never
closes that start marker.) -/
theorem walkEntries_spec (accept : AcceptFn) (B : List (List Char)) :
    ∀ (N : Nat) (es : List FileTree), treesSize es ≤ N →
    ∀ (ds extra : List (List Char)) (st : WalkSt),
    (∀ c ∈ B ++ ds, WfComp c) →
    wfTreeList es = true →
    ((es.map FileTree.name).Nodup) →
    st.prevDir = renderAbs (B ++ ds ++ extra) →
    (∀ c ∈ extra, WfComp c) →
    (st.prevDirSkipped = true → extra ≠ []) →
    (∀ e ∈ es, extra.head? ≠ some (FileTree.name e).data) →
    ∃ st2 extra2,
      walkEntries accept (renderAbs (B ++ ds)) es st = some st2 ∧
      st2.prevDir = renderAbs (B ++ ds ++ extra2) ∧
      (∀ c ∈ extra2, WfComp c) ∧
      (st2.prevDirSkipped = true → extra2 ≠ []) ∧
      ∃ tail, st2.ops = st.ops ++ tail ∧
        balRun (extra.length + (if st.prevDirSkipped then 0 else 1) - 1) tail
          = some (extra2.length + (if st2.prevDirSkipped then 0 else 1) - 1) := by
  intro N
  induction N with
  | zero =>
    intro es hsize
    cases es with
    | nil =>
      intro ds extra st hBds hwf hnodup hprev hex hskip havoid
      exact ⟨st, extra, by simp [walkEntries], hprev, hex, hskip,
        [], (List.append_nil _).symm, rfl⟩
    | cons e rest =>
      intro ds extra st hBds hwf hnodup hprev hex hskip havoid
      exfalso
      have h1 := treeSize_pos e
      simp only [treesSize] at hsize
      omega
  | succ N ih =>
    intro es hsize
    cases es with
    | nil =>
      intro ds extra st hBds hwf hnodup hprev hex hskip havoid
      exact ⟨st, extra, by simp [walkEntries], hprev, hex, hskip,
        [], (List.append_nil _).symm, rfl⟩
    | cons e rest =>
      intro ds extra st hBds hwf hnodup hprev hex hskip havoid
      have hrest_le : treesSize rest ≤ N := by
        have h1 := treeSize_pos e
        simp only [treesSize] at hsize
        omega
      have hwf2 : wfTree e = true ∧ wfTreeList rest = true := by
        have hh := hwf
        simp only [wfTreeList, Bool.and_eq_true] at hh
        exact hh
      have hnodup2 : FileTree.name e ∉ rest.map FileTree.name
          ∧ (rest.map FileTree.name).Nodup := by
        have hh := hnodup
        simp only [List.map_cons, List.nodup_cons] at hh
        exact hh
      have hbalends : balRun (extra.length + (if st.prevDirSkipped then 0 else 1) - 1)
          (List.replicate (extra.length - (if st.prevDirSkipped then 1 else 0))
            SinkOp.endDir) = some 0 := by
        rw [ends_emitted_eq_depth_above extra st.prevDirSkipped,
          balRun_replicate_end _ _ le_rfl, Nat.sub_self]
      cases e with
      | file n m sz mt at_ =>
        have hn : WfComp n.data := by
          have hh := hwf2.1
          simp only [wfTree, decide_eq_true_eq] at hh
          exact hh
        have hBdsn : ∀ c ∈ (B ++ ds) ++ [n.data], WfComp c := by
          intro c hc
          rcases List.mem_append.mp hc with hc | hc
          · exact hBds c hc
          · simp only [List.mem_singleton] at hc
            subst hc
            exact hn
        have hpath : filepathJoin (renderAbs (B ++ ds)) n = renderAbs (B ++ ds ++ [n.data]) := by
          calc filepathJoin (renderAbs (B ++ ds)) n
              = filepathJoin (renderAbs (B ++ ds)) (String.mk n.data) := by rw [string_eta]
            _ = renderAbs ((B ++ ds) ++ [n.data]) := filepathJoin_renderAbs _ _ hBds hn
        have hdir : filepathDir (renderAbs (B ++ ds ++ [n.data])) = renderAbs (B ++ ds) :=
          filepathDir_renderAbs (B ++ ds) n.data hBdsn
        have hend := endDirectories_renderAbs (B ++ ds) extra [] st hBds hex
          (by simp) (commonPrefixLen_nil_right extra) hskip
        rw [List.append_nil] at hend
        have h1 : endDirectories st.prevDir (filepathDir (renderAbs (B ++ ds ++ [n.data]))) st
            = some ⟨st.prevDir, false,
                st.ops ++ List.replicate (extra.length - (if st.prevDirSkipped then 1 else 0))
                  SinkOp.endDir⟩ := by
          rw [hdir]
          conv_lhs => rw [hprev]
          exact hend
        have hwe := walkEntry_file_eq accept (renderAbs (B ++ ds ++ [n.data])) st n m sz mt at_
          st.prevDir false _ h1
        rw [hdir] at hwe
        by_cases hacc : accept (renderAbs (B ++ ds)) ⟨n, sz, m, false, mt, at_⟩
        · rw [if_pos hacc] at hwe
          obtain ⟨st2, extra2, hrun, h2a, h2b, h2c, tail2, h2e, h2f⟩ :=
            ih rest hrest_le ds []
              ⟨renderAbs (B ++ ds), false,
                (st.ops ++ List.replicate (extra.length - (if st.prevDirSkipped then 1 else 0))
                  SinkOp.endDir) ++ [SinkOp.writeFile n m sz]⟩
              hBds hwf2.2 hnodup2.2
              (by simp)
              (by simp)
              (by simp)
              (by intro e' he'; simp)
          have h2f' : balRun 0 tail2
              = some (extra2.length + (if st2.prevDirSkipped then 0 else 1) - 1) := by
            simpa using h2f
          refine ⟨st2, extra2, ?_, h2a, h2b, h2c,
            (List.replicate (extra.length - (if st.prevDirSkipped then 1 else 0)) SinkOp.endDir
              ++ [SinkOp.writeFile n m sz]) ++ tail2, ?_, ?_⟩
          · rw [walkEntries_cons_eq accept (renderAbs (B ++ ds)) _ rest st _
              (by show walkEntry accept (filepathJoin (renderAbs (B ++ ds)) n)
                    (FileTree.file n m sz mt at_) st = _
                  rw [hpath]
                  exact hwe)]
            exact hrun
          · calc st2.ops
                = ((st.ops ++ List.replicate (extra.length
                    - (if st.prevDirSkipped then 1 else 0)) SinkOp.endDir)
                    ++ [SinkOp.writeFile n m sz]) ++ tail2 := h2e
              _ = _ := by simp [List.append_assoc]
          · rw [balRun_append, balRun_append, hbalends]
            show balRun 0 ([SinkOp.writeFile n m sz] ++ tail2) = _
            rw [balRun_append]
            show balRun 0 tail2 = _
            exact h2f'
        · rw [if_neg hacc] at hwe
          obtain ⟨st2, extra2, hrun, h2a, h2b, h2c, tail2, h2e, h2f⟩ :=
            ih rest hrest_le ds []
              ⟨renderAbs (B ++ ds), false,
                st.ops ++ List.replicate (extra.length - (if st.prevDirSkipped then 1 else 0))
                  SinkOp.endDir⟩
              hBds hwf2.2 hnodup2.2
              (by simp)
              (by simp)
              (by simp)
              (by intro e' he'; simp)
          have h2f' : balRun 0 tail2
              = some (extra2.length + (if st2.prevDirSkipped then 0 else 1) - 1) := by
            simpa using h2f
          refine ⟨st2, extra2, ?_, h2a, h2b, h2c,
            List.replicate (extra.length - (if st.prevDirSkipped then 1 else 0)) SinkOp.endDir
              ++ tail2, ?_, ?_⟩
          · rw [walkEntries_cons_eq accept (renderAbs (B ++ ds)) _ rest st _
              (by show walkEntry accept (filepathJoin (renderAbs (B ++ ds)) n)
                    (FileTree.file n m sz mt at_) st = _
                  rw [hpath]
                  exact hwe)]
            exact hrun
          · calc st2.ops
                = (st.ops ++ List.replicate (extra.length
                    - (if st.prevDirSkipped then 1 else 0)) SinkOp.endDir) ++ tail2 := h2e
              _ = _ := by simp [List.append_assoc]
          · rw [balRun_append, hbalends]
            show balRun 0 tail2 = _
            exact h2f'
      | dir n m mt at_ entries =>
        have hdirwf : WfComp n.data ∧ (entries.map FileTree.name).Nodup
            ∧ wfTreeList entries = true := by
          have hh := hwf2.1
          simp only [wfTree, Bool.and_eq_true, decide_eq_true_eq] at hh
          exact ⟨hh.1.1, hh.1.2, hh.2⟩
        have hn : WfComp n.data := hdirwf.1
        have hBdsn : ∀ c ∈ (B ++ ds) ++ [n.data], WfComp c := by
          intro c hc
          rcases List.mem_append.mp hc with hc | hc
          · exact hBds c hc
          · simp only [List.mem_singleton] at hc
            subst hc
            exact hn
        have hpath : filepathJoin (renderAbs (B ++ ds)) n = renderAbs (B ++ ds ++ [n.data]) := by
          calc filepathJoin (renderAbs (B ++ ds)) n
              = filepathJoin (renderAbs (B ++ ds)) (String.mk n.data) := by rw [string_eta]
            _ = renderAbs ((B ++ ds) ++ [n.data]) := filepathJoin_renderAbs _ _ hBds hn
        have hheadz : commonPrefixLen extra [n.data] = 0 := by
          apply commonPrefixLen_eq_zero_of_head
          left
          have hh := havoid (FileTree.dir n m mt at_ entries) (by simp)
          simpa using hh
        have hend := endDirectories_renderAbs (B ++ ds) extra [n.data] st hBds hex
          (by intro c hc; simp only [List.mem_singleton] at hc; subst hc; exact hn)
          hheadz hskip
        have h1 : endDirectories st.prevDir (renderAbs (B ++ ds ++ [n.data])) st
            = some ⟨st.prevDir, false,
                st.ops ++ List.replicate (extra.length - (if st.prevDirSkipped then 1 else 0))
                  SinkOp.endDir⟩ := by
          conv_lhs => rw [hprev]
          exact hend
        have hnd_rest : ∀ e' ∈ rest, ([n.data] : List (List Char)).head?
            ≠ some (FileTree.name e').data := by
          intro e' he' hcontra
          simp only [List.head?_cons, Option.some.injEq] at hcontra
          have hne2 : n = FileTree.name e' := stringDataInj hcontra
          exact hnodup2.1 (by
            rw [show FileTree.name (FileTree.dir n m mt at_ entries) = n from rfl, hne2]
            exact List.mem_map_of_mem FileTree.name he')
        have hwe := walkEntry_dir_eq accept (renderAbs (B ++ ds ++ [n.data])) st n m mt at_ entries
          st.prevDir false _ h1
        rw [filepathDir_renderAbs (B ++ ds) n.data hBdsn] at hwe
        by_cases hacc : accept (renderAbs (B ++ ds)) ⟨n, 0, m, true, mt, at_⟩
        · rw [if_pos hacc] at hwe
          have hentries_le : treesSize entries ≤ N := by
            have hsz : treeSize (FileTree.dir n m mt at_ entries) = treesSize entries + 1 := rfl
            have h1p := treeSize_pos (FileTree.dir n m mt at_ entries)
            simp only [treesSize] at hsize
            omega
          have hBds' : ∀ c ∈ B ++ (ds ++ [n.data]), WfComp c := by
            intro c hc
            rw [← List.append_assoc] at hc
            exact hBdsn c hc
          obtain ⟨st3, extra3, hrun3, h3a, h3b, h3c, tail3, h3e, h3f⟩ :=
            ih entries hentries_le (ds ++ [n.data]) []
              ⟨renderAbs (B ++ ds ++ [n.data]), false,
                (st.ops ++ List.replicate (extra.length - (if st.prevDirSkipped then 1 else 0))
                  SinkOp.endDir) ++ [SinkOp.startDir n m]⟩
              hBds' hdirwf.2.2 hdirwf.2.1
              (by simp [List.append_assoc])
              (by simp)
              (by simp)
              (by intro e' he'; simp)
          have h3f' : balRun 0 tail3
              = some (extra3.length + (if st3.prevDirSkipped then 0 else 1) - 1) := by
            simpa using h3f
          have hz3 : 1 ≤ extra3.length + (if st3.prevDirSkipped then 0 else 1) := by
            cases hfl : st3.prevDirSkipped
            · simp
            · have hne := h3c hfl
              cases extra3 with
              | nil => exact absurd rfl hne
              | cons c cs => simp
          have h3fs : balRun 1 tail3
              = some (extra3.length + (if st3.prevDirSkipped then 0 else 1)) := by
            have hh := balRun_shift tail3 0 _ h3f'
            rw [show (extra3.length + (if st3.prevDirSkipped then 0 else 1) - 1) + 1
              = extra3.length + (if st3.prevDirSkipped then 0 else 1) by omega] at hh
            exact hh
          have hrun3' : walkEntries accept (renderAbs (B ++ ds ++ [n.data])) entries
              ⟨renderAbs (B ++ ds ++ [n.data]), false,
                (st.ops ++ List.replicate (extra.length - (if st.prevDirSkipped then 1 else 0))
                  SinkOp.endDir) ++ [SinkOp.startDir n m]⟩ = some st3 := by
            nth_rewrite 1 [show B ++ ds ++ [n.data] = B ++ (ds ++ [n.data]) from
              List.append_assoc B ds [n.data]]
            exact hrun3
          obtain ⟨st2, extra2, hrun, h2a, h2b, h2c, tail2, h2e, h2f⟩ :=
            ih rest hrest_le ds ([n.data] ++ extra3) st3 hBds hwf2.2 hnodup2.2
              (by rw [h3a]; simp [List.append_assoc])
              (by intro c hc
                  rcases List.mem_append.mp hc with hc | hc
                  · simp only [List.mem_singleton] at hc
                    subst hc
                    exact hn
                  · exact h3b c hc)
              (by intro _; simp)
              (by intro e' he'
                  simp only [List.cons_append, List.head?_cons, List.nil_append]
                  intro hcontra
                  have hco : n.data = (FileTree.name e').data := by simpa using hcontra
                  have hne2 : n = FileTree.name e' := stringDataInj hco
                  exact hnodup2.1 (by
                    rw [show FileTree.name (FileTree.dir n m mt at_ entries) = n from rfl, hne2]
                    exact List.mem_map_of_mem FileTree.name he'))
          have h2f' : balRun (extra3.length + (if st3.prevDirSkipped then 0 else 1)) tail2
              = some (extra2.length + (if st2.prevDirSkipped then 0 else 1) - 1) := by
            have hbase : ([n.data] ++ extra3).length + (if st3.prevDirSkipped then 0 else 1) - 1
                = extra3.length + (if st3.prevDirSkipped then 0 else 1) := by
              simp only [List.cons_append, List.nil_append, List.length_cons]
              omega
            rw [hbase] at h2f
            exact h2f
          refine ⟨st2, extra2, ?_, h2a, h2b, h2c,
            List.replicate (extra.length - (if st.prevDirSkipped then 1 else 0)) SinkOp.endDir
              ++ ([SinkOp.startDir n m] ++ (tail3 ++ tail2)), ?_, ?_⟩
          · rw [walkEntries_cons_eq accept (renderAbs (B ++ ds)) _ rest st st3
              (by show walkEntry accept (filepathJoin (renderAbs (B ++ ds)) n)
                    (FileTree.dir n m mt at_ entries) st = _
                  rw [hpath]
                  exact hwe.trans hrun3')]
            exact hrun
          · calc st2.ops
                = st3.ops ++ tail2 := h2e
              _ = (((st.ops ++ List.replicate (extra.length
                    - (if st.prevDirSkipped then 1 else 0)) SinkOp.endDir)
                    ++ [SinkOp.startDir n m]) ++ tail3) ++ tail2 := by rw [h3e]
              _ = _ := by simp [List.append_assoc]
          · rw [balRun_append, hbalends]
            show balRun 0 ([SinkOp.startDir n m] ++ (tail3 ++ tail2)) = _
            rw [balRun_append]
            show balRun 1 (tail3 ++ tail2) = _
            rw [balRun_append, h3fs]
            exact h2f'
        · rw [if_neg hacc] at hwe
          obtain ⟨st2, extra2, hrun, h2a, h2b, h2c, tail2, h2e, h2f⟩ :=
            ih rest hrest_le ds [n.data]
              ⟨renderAbs (B ++ ds ++ [n.data]), true,
                st.ops ++ List.replicate (extra.length - (if st.prevDirSkipped then 1 else 0))
                  SinkOp.endDir⟩
              hBds hwf2.2 hnodup2.2
              rfl
              (by intro c hc; simp only [List.mem_singleton] at hc; subst hc; exact hn)
              (by intro _; simp)
              hnd_rest
          have h2f' : balRun 0 tail2
              = some (extra2.length + (if st2.prevDirSkipped then 0 else 1) - 1) := by
            simpa using h2f
          refine ⟨st2, extra2, ?_, h2a, h2b, h2c,
            List.replicate (extra.length - (if st.prevDirSkipped then 1 else 0)) SinkOp.endDir
              ++ tail2, ?_, ?_⟩
          · rw [walkEntries_cons_eq accept (renderAbs (B ++ ds)) _ rest st _
              (by show walkEntry accept (filepathJoin (renderAbs (B ++ ds)) n)
                    (FileTree.dir n m mt at_ entries) st = _
                  rw [hpath]
                  exact hwe)]
            exact hrun
          · calc st2.ops
                = (st.ops ++ List.replicate (extra.length
                    - (if st.prevDirSkipped then 1 else 0)) SinkOp.endDir) ++ tail2 := h2e
              _ = _ := by simp [List.append_assoc]
          · rw [balRun_append, hbalends]
            show balRun 0 tail2 = _
            exact h2f'

theorem sendDir_eq (accept : AcceptFn) (src : String) (root : FileTree) (st1 : WalkSt)
    (h : walkEntry accept (filepathClean src) root
      ⟨filepathClean src, false, []⟩ = some st1) :
    sendDir accept src root = endDirectories st1.prevDir (filepathClean src) st1 := by
  simp only [sendDir, h]

/-- C4 (amended): on every well-formed tree rooted at an absolute source
directory, `SendDir`'s walk succeeds and the emitted call sequence closes
every directory except the source root itself: when the filter accepts the
root, the sequence is the root's `StartDirectory` followed by a
self-balanced tail (`balRun 0 tail = some 0`: no `EndDirectory` in the
tail ever pops the root's start marker, and the ends close the tail's own
starts back out exactly to the root's level), so only the root's own start
stays unclosed and `Starts = Ends + 1`; when the filter rejects the root,
nothing at all is emitted, so `Starts = Ends = 0`. -/
theorem sendDir_end_markers_balance_all_but_root
    (accept : AcceptFn) (src : String) (rn : String) (rm rmt rat : Nat)
    (es : List FileTree)
    (hroot : isRooted src = true)
    (hwf : wfTree (FileTree.dir rn rm rmt rat es) = true) :
    ∃ st, sendDir accept src (FileTree.dir rn rm rmt rat es) = some st
      ∧ (accept (filepathDir (filepathClean src)) ⟨rn, 0, rm, true, rmt, rat⟩ = true →
          ∃ tail, st.ops = SinkOp.startDir rn rm :: tail ∧ balRun 0 tail = some 0)
      ∧ (accept (filepathDir (filepathClean src)) ⟨rn, 0, rm, true, rmt, rat⟩ = false →
          st.ops = [])
      ∧ balRun 0 st.ops = some (if accept (filepathDir (filepathClean src))
          ⟨rn, 0, rm, true, rmt, rat⟩ then 1 else 0)
      ∧ countStart st.ops = countEnd st.ops + (if accept (filepathDir (filepathClean src))
          ⟨rn, 0, rm, true, rmt, rat⟩ then 1 else 0) := by
  have hsrcne : src ≠ "" := by
    intro h
    rw [h] at hroot
    simp [isRooted] at hroot
  have hB : ∀ c ∈ cleanedComps src, WfComp c := cleanedComps_wf src hroot
  have hclean : filepathClean src = renderAbs (cleanedComps src) := by
    unfold filepathClean
    rw [if_neg hsrcne, hroot]
    simp
  have hdirwf : WfComp rn.data ∧ (es.map FileTree.name).Nodup ∧ wfTreeList es = true := by
    have hh := hwf
    simp only [wfTree, Bool.and_eq_true, decide_eq_true_eq] at hh
    exact ⟨hh.1.1, hh.1.2, hh.2⟩
  have h1 : endDirectories (renderAbs (cleanedComps src)) (renderAbs (cleanedComps src))
      (⟨renderAbs (cleanedComps src), false, []⟩ : WalkSt)
      = some ⟨renderAbs (cleanedComps src), false, []⟩ := by
    have hh := endDirectories_renderAbs (cleanedComps src) [] []
      ⟨renderAbs (cleanedComps src), false, []⟩ hB (by simp) (by simp) rfl (by simp)
    rw [List.append_nil] at hh
    simpa using hh
  have hwe := walkEntry_dir_eq accept (renderAbs (cleanedComps src))
    ⟨renderAbs (cleanedComps src), false, []⟩ rn rm rmt rat es
    (renderAbs (cleanedComps src)) false [] h1
  rw [hclean]
  by_cases hacc : accept (filepathDir (renderAbs (cleanedComps src))) ⟨rn, 0, rm, true, rmt, rat⟩
  · rw [if_pos hacc] at hwe
    obtain ⟨st3, extra3, hrun, h3a, h3b, h3c, tail3, h3e, h3f⟩ :=
      walkEntries_spec accept (cleanedComps src) (treesSize es) es le_rfl [] []
        ⟨renderAbs (cleanedComps src), false, [SinkOp.startDir rn rm]⟩
        (by simpa using hB) hdirwf.2.2 hdirwf.2.1
        (by simp) (by simp) (by simp) (by intro e' he'; simp)
    rw [List.append_nil] at hrun h3a
    have h3e' : st3.ops = SinkOp.startDir rn rm :: tail3 := by simpa using h3e
    have h3f' : balRun 0 tail3
        = some (extra3.length + (if st3.prevDirSkipped then 0 else 1) - 1) := by
      simpa using h3f
    have hwalk : walkEntry accept (filepathClean src) (FileTree.dir rn rm rmt rat es)
        ⟨filepathClean src, false, []⟩ = some st3 := by
      rw [hclean]
      exact hwe.trans hrun
    have hfinal : endDirectories st3.prevDir (filepathClean src) st3
        = some ⟨st3.prevDir, false,
            st3.ops ++ List.replicate (extra3.length
              - (if st3.prevDirSkipped then 1 else 0)) SinkOp.endDir⟩ := by
      rw [hclean]
      conv_lhs => rw [h3a]
      have hh := endDirectories_renderAbs (cleanedComps src) extra3 [] st3 hB h3b
        (by simp) (commonPrefixLen_nil_right extra3) h3c
      rw [List.append_nil] at hh
      exact hh
    have htailbal : balRun 0 (tail3 ++ List.replicate (extra3.length
        - (if st3.prevDirSkipped then 1 else 0)) SinkOp.endDir) = some 0 := by
      rw [balRun_append, h3f']
      show balRun (extra3.length + (if st3.prevDirSkipped then 0 else 1) - 1)
        (List.replicate (extra3.length - (if st3.prevDirSkipped then 1 else 0))
          SinkOp.endDir) = some 0
      rw [ends_emitted_eq_depth_above extra3 st3.prevDirSkipped,
        balRun_replicate_end _ _ le_rfl, Nat.sub_self]
    have hopsbal : balRun 0 (st3.ops ++ List.replicate (extra3.length
        - (if st3.prevDirSkipped then 1 else 0)) SinkOp.endDir) = some 1 := by
      rw [h3e', List.cons_append]
      simp only [balRun]
      exact balRun_shift _ 0 0 htailbal
    refine ⟨⟨st3.prevDir, false,
        st3.ops ++ List.replicate (extra3.length
          - (if st3.prevDirSkipped then 1 else 0)) SinkOp.endDir⟩, ?_, ?_, ?_, ?_, ?_⟩
    · rw [sendDir_eq accept src _ st3 hwalk]
      exact hfinal
    · intro _
      refine ⟨tail3 ++ List.replicate (extra3.length
          - (if st3.prevDirSkipped then 1 else 0)) SinkOp.endDir, ?_, htailbal⟩
      show st3.ops ++ _ = _
      rw [h3e', List.cons_append]
    · intro habs
      rw [habs] at hacc
      exact absurd hacc (by decide)
    · rw [if_pos hacc]
      exact hopsbal
    · rw [if_pos hacc]
      have hc := balRun_counts _ 0 1 hopsbal
      show countStart (st3.ops ++ List.replicate (extra3.length
          - (if st3.prevDirSkipped then 1 else 0)) SinkOp.endDir)
        = countEnd (st3.ops ++ List.replicate (extra3.length
          - (if st3.prevDirSkipped then 1 else 0)) SinkOp.endDir) + 1
      omega
  · rw [if_neg hacc] at hwe
    have hwalk : walkEntry accept (filepathClean src) (FileTree.dir rn rm rmt rat es)
        ⟨filepathClean src, false, []⟩
        = some ⟨renderAbs (cleanedComps src), true, []⟩ := by
      rw [hclean]
      exact hwe
    have hfinal : endDirectories (renderAbs (cleanedComps src)) (filepathClean src)
        (⟨renderAbs (cleanedComps src), true, []⟩ : WalkSt)
        = some ⟨renderAbs (cleanedComps src), true, []⟩ := by
      rw [hclean]
      unfold endDirectories
      rw [filepathRel_self]
      show some (endDirsFold _ (splitSep (".").data)) = _
      rw [show splitSep (".").data = [['.']] from rfl]
      rw [endDirsFold_no_dd _ [['.']] (by decide)]
    refine ⟨⟨renderAbs (cleanedComps src), true, []⟩, ?_, ?_, ?_, ?_, ?_⟩
    · rw [sendDir_eq accept src _ _ hwalk]
      exact hfinal
    · intro htrue
      exact absurd htrue hacc
    · intro _
      rfl
    · rw [if_neg hacc]
      rfl
    · rw [if_neg hacc]
      rfl

/-- C4 witness: a concrete accepted-root walk emits the root's start
marker followed by a self-balanced tail, so exactly the root's start stays
unclosed. -/
theorem sendDir_end_markers_balance_all_but_root_witness :
    ∃ st, sendDir (fun _ _ => true) "/s"
        (FileTree.dir "root" 448 1 2 [FileTree.file "f" 420 3 4 5]) = some st
      ∧ ((fun (_ : String) (_ : FInfo) => true)
          (filepathDir (filepathClean "/s")) ⟨"root", 0, 448, true, 1, 2⟩ = true →
          ∃ tail, st.ops = SinkOp.startDir "root" 448 :: tail ∧ balRun 0 tail = some 0)
      ∧ ((fun (_ : String) (_ : FInfo) => true)
          (filepathDir (filepathClean "/s")) ⟨"root", 0, 448, true, 1, 2⟩ = false →
          st.ops = [])
      ∧ balRun 0 st.ops = some (if (fun (_ : String) (_ : FInfo) => true)
          (filepathDir (filepathClean "/s")) ⟨"root", 0, 448, true, 1, 2⟩ then 1 else 0)
      ∧ countStart st.ops = countEnd st.ops + (if (fun (_ : String) (_ : FInfo) => true)
          (filepathDir (filepathClean "/s")) ⟨"root", 0, 448, true, 1, 2⟩ then 1 else 0) :=
  sendDir_end_markers_balance_all_but_root (fun _ _ => true) "/s" "root" 448 1 2
    [FileTree.file "f" 420 3 4 5] (by decide) (by decide)
